import Mathlib

/-!
# Verification of the lp2025 numeric-domain transform core

A shallow embedding, in Lean 4, of the parts of the `lp2025` repository that
the specification's claims are about:

* the Q16.16 fixed-point reference algorithms
  (`src/lp-glsl/crates/lp-glsl-compiler/src/backend/transform/fixed32/reference/div_recip.rs`
  and `sqrt_recip.rs`), including their float conversion helpers, modelled over
  `ℤ`/`ℕ` with explicit two's-complement wrapping and over `ℚ` with an explicit
  IEEE-754 binary32 rounding function;
* the LPFX builtin registry validation
  (`src/lp-glsl/apps/lp-builtin-gen/src/lpfx/validate.rs`) and lookup
  (`src/lp-glsl/crates/lp-glsl-compiler/src/frontend/semantic/lpfx/lpfx_fn_registry.rs`);
* the transform driver and the multi-value-return ABI caller protocol, whose
  implementations are not part of the provided sources and are therefore
  modelled from the specification text (each such definition is marked
  `Modelled from the spec:`).

Machine integers are modelled as `ℕ` / `ℤ` with explicit `% 2^w` wrapping;
fallible operations (Rust `/`, which panics on a zero divisor) return `Option`.
-/

namespace LP

/-! ## Two's-complement helpers

Rust integer primitives are modelled as follows: a `u32` is a `ℕ` (callers
guarantee `< 2^32`), an `i32`/`i64` is a `ℤ` (callers guarantee the usual
range).  Casts between them are explicit. -/

/-- Interpret a `u32` bit pattern (a natural `< 2^32`) as an `i32` value
(Rust `as i32`). -/
def toI32 (n : ℕ) : ℤ :=
  if n < 2 ^ 31 then (n : ℤ) else (n : ℤ) - 2 ^ 32

/-- Interpret a `u64` bit pattern (a natural `< 2^64`) as an `i64` value
(Rust `as i64`). -/
def toI64 (n : ℕ) : ℤ :=
  if n < 2 ^ 63 then (n : ℤ) else (n : ℤ) - 2 ^ 64

/-- The `u32` bit pattern of an integer: two's-complement truncation to 32
bits (Rust `as u32`). -/
def toU32 (z : ℤ) : ℕ :=
  (z % 2 ^ 32).toNat

/-- The `u64` bit pattern of an integer (Rust `as u64`). -/
def toU64 (z : ℤ) : ℕ :=
  (z % 2 ^ 64).toNat

/-- Wrapping truncation of an integer to the `i32` value range
(Rust `as i32` from a wider signed type, or wrapping `i32` arithmetic). -/
def wrap32 (z : ℤ) : ℤ :=
  toI32 (toU32 z)

/-- Wrapping truncation of an integer to the `i64` value range. -/
def wrap64 (z : ℤ) : ℤ :=
  toI64 (toU64 z)

/-- Bitwise `xor` of two `i32` values (Rust `a ^ b`), computed on the
two's-complement bit patterns. -/
def i32Xor (a b : ℤ) : ℤ :=
  toI32 (toU32 a ^^^ toU32 b)

/-- Rust `i64::abs`: ordinary absolute value except that `i64::MIN` wraps to
itself (release-profile two's-complement overflow). -/
def absWrap64 (z : ℤ) : ℤ :=
  wrap64 |z|

/-- Arithmetic right shift of an `i64`/`i32` value: floor division by a power
of two (Rust `>>` on signed integers). -/
def ishr (z : ℤ) (k : ℕ) : ℤ :=
  Int.fdiv z (2 ^ k)

/-- Rust `u64::saturating_mul`. -/
def satMul64 (a b : ℕ) : ℕ :=
  min (a * b) (2 ^ 64 - 1)

/-- Rust integer division `a / b`, which panics when `b = 0`; the panic is
modelled as `none`. -/
def checkedDiv (a b : ℕ) : Option ℕ :=
  if b = 0 then none else some (a / b)

/-! ## `div_recip.rs`: fixed16x16 division by reciprocal multiplication -/

/-- Embedding of `fixed32_udiv` (div_recip.rs).

```text
fn fixed32_udiv(dividend: u32, divisor: u32) -> u32 {
    let recip = 0x8000_0000u32 / divisor;
    let quotient = (((dividend as u64) * (recip as u64) * 2u64) >> SHIFT) as u32;
    quotient
}
```

The `u64` product is reduced `% 2^64` (wrapping semantics of the machine
width) and the final `as u32` is `% 2^32`. -/
def fixed32_udiv (dividend divisor : ℕ) : Option ℕ :=
  (checkedDiv 0x80000000 divisor).map fun recip =>
    (((dividend * recip * 2) % 2 ^ 64) >>> 16) % 2 ^ 32

/-- Embedding of `fixed32_idiv` (div_recip.rs).

```text
fn fixed32_idiv(dividend: i32, divisor: i32) -> i32 {
    let result_sign = if (dividend ^ divisor) < 0 { -1 } else { 1 };
    (fixed32_udiv(dividend.abs() as u32, divisor.abs() as u32) as i32) * result_sign
}
```

`x.abs() as u32` equals `x.natAbs` for every in-range `i32` `x`: for
`x = i32::MIN`, `abs` wraps (release profile) to `i32::MIN`, whose `u32` bit
pattern is `2^31 = (i32::MIN).natAbs`.  The final product is `i32`
multiplication by `±1`, which wraps. -/
def fixed32_idiv (dividend divisor : ℤ) : Option ℤ :=
  let result_sign : ℤ := if i32Xor dividend divisor < 0 then -1 else 1
  (fixed32_udiv dividend.natAbs divisor.natAbs).map fun q =>
    wrap32 (toI32 q * result_sign)

/-- The reciprocal-multiplication algorithm for signed Q16.16 division as the
specification states it: `recip = 0x8000_0000 / |divisor|` by truncating
unsigned 32-bit division, `quotient = ((|dividend| as 64-bit) * recip * 2) >> 16`
narrowed back to 32 bits, and the quotient negated exactly when the two
operands' signs differ. -/
def idivAlg (dividend divisor : ℤ) : ℤ :=
  let recip : ℕ := 0x80000000 / divisor.natAbs
  let quotient : ℕ := ((dividend.natAbs * recip * 2) >>> 16) % 2 ^ 32
  if (decide (dividend < 0)) ≠ (decide (divisor < 0)) then
    wrap32 (-(toI32 quotient))
  else
    toI32 quotient

/-! ## `sqrt_recip.rs`: fixed16x16 square root by Newton–Raphson -/

/-- Embedding of `compute_reciprocal` (sqrt_recip.rs).

```text
fn compute_reciprocal(value: i32) -> u32 {
    let abs_value = value.abs() as u32;
    let safe_value = if abs_value == 0 { 1 } else { abs_value };
    0x8000_0000u32 / safe_value
}
```
-/
def compute_reciprocal (value : ℤ) : Option ℕ :=
  let abs_value : ℕ := value.natAbs
  let safe_value : ℕ := if abs_value = 0 then 1 else abs_value
  checkedDiv 0x80000000 safe_value

/-- Embedding of `divide_by_reciprocal` (sqrt_recip.rs): divide `x_scaled`
(`i64`) by `guess` using reciprocal multiplication, with `guess` truncated to
32 bits for the reciprocal lookup and the two multiplications saturating in
`u64`.

```text
fn divide_by_reciprocal(x_scaled: i64, guess: i64) -> i64 {
    let guess_abs = guess.abs();
    let guess_safe = if guess_abs == 0 { 1 } else { guess_abs };
    let guess_i32 = guess_safe.min(i32::MAX as i64) as i32;
    let guess_safe_u32 = guess_i32.abs() as u32;
    let guess_safe_u32 = if guess_safe_u32 == 0 { 1 } else { guess_safe_u32 };
    let recip = 0x8000_0000u32 / guess_safe_u32;
    let x_scaled_abs = x_scaled.abs() as u64;
    let recip_u64 = recip as u64;
    let mul_result = x_scaled_abs.saturating_mul(recip_u64).saturating_mul(2u64);
    let quotient = (mul_result >> SHIFT) as i64;
    let result_sign = if (x_scaled < 0) != (guess < 0) { -1 } else { 1 };
    quotient * result_sign
}
```

`x_scaled.abs() as u64` equals `x_scaled.natAbs` for every in-range `i64`
(including `i64::MIN`, whose wrapped `abs` has bit pattern `2^63`). -/
def divide_by_reciprocal (x_scaled guess : ℤ) : Option ℤ :=
  let guess_abs : ℤ := absWrap64 guess
  let guess_safe : ℤ := if guess_abs = 0 then 1 else guess_abs
  let guess_i32 : ℤ := wrap32 (min guess_safe (2 ^ 31 - 1))
  let g0 : ℕ := guess_i32.natAbs
  let guess_safe_u32 : ℕ := if g0 = 0 then 1 else g0
  (checkedDiv 0x80000000 guess_safe_u32).map fun recip =>
    let x_scaled_abs : ℕ := x_scaled.natAbs
    let mul_result : ℕ := satMul64 (satMul64 x_scaled_abs recip) 2
    let quotient : ℤ := toI64 (mul_result >>> 16)
    let result_sign : ℤ := if (decide (x_scaled < 0)) ≠ (decide (guess < 0)) then -1 else 1
    wrap64 (quotient * result_sign)

/-- One Newton–Raphson iteration of `fixed32_sqrt`'s loop body:
`guess = (guess + x_scaled / guess) >> 1`, with the division computed by
`divide_by_reciprocal` and a final guard keeping the guess nonzero. -/
def sqrtIter (x_scaled guess : ℤ) : Option ℤ :=
  (divide_by_reciprocal x_scaled guess).map fun x_div_guess =>
    let sum := wrap64 (guess + x_div_guess)
    let g := ishr sum 1
    if g = 0 then 1 else g

/-- `n` iterations of `sqrtIter`. -/
def sqrtLoop : ℕ → ℤ → ℤ → Option ℤ
  | 0, _, guess => some guess
  | n + 1, x_scaled, guess => (sqrtIter x_scaled guess).bind (sqrtLoop n x_scaled)

/-- Embedding of `fixed32_sqrt` (sqrt_recip.rs): for non-positive input return
`0`; otherwise pre-scale `x_scaled = (x as i64) << 16`, take the initial guess
`(x_scaled >> 9).max(1)`, run six Newton–Raphson iterations, and return
`(guess >> 8) as i32`. -/
def fixed32_sqrt (x_fixed : ℤ) : Option ℤ :=
  if x_fixed ≤ 0 then some 0
  else
    let x_scaled : ℤ := wrap64 (x_fixed * 2 ^ 16)
    let guess : ℤ := max (ishr x_scaled 9) 1
    (sqrtLoop 6 x_scaled guess).map fun g => wrap32 (ishr g 8)

/-- The claim's division step for the square root, specialised to the
positive operands the algorithm feeds it: the reciprocal trick of fixed-point
division with the guess truncated to 32 bits for the reciprocal lookup
(`recip = 0x8000_0000 / min(guess, i32::MAX)`), the product saturating in the
64-bit width. -/
def sqrtDivStep (x_scaled guess : ℤ) : ℤ :=
  let recip : ℕ := 0x80000000 / (min guess (2 ^ 31 - 1)).toNat
  ((satMul64 (satMul64 x_scaled.toNat recip) 2) >>> 16 : ℕ)

/-- The square-root algorithm exactly as the claim states it for positive
input: `x_scaled = x << 16` in 64-bit width, initial guess `x_scaled >> 9`,
six iterations of `guess = (guess + x_scaled/guess) >> 1` with the division
by `sqrtDivStep`, and a final right shift by 8 (narrowed to 32 bits on
return, as the function returns an `i32`). -/
def sqrtAlg (x_fixed : ℤ) : ℤ :=
  let x_scaled : ℤ := x_fixed * 2 ^ 16
  let g : ℤ := (fun guess => ishr (guess + sqrtDivStep x_scaled guess) 1)^[6] (ishr x_scaled 9)
  wrap32 (ishr g 8)

/-! ## The float conversion helpers of `div_recip.rs` / `sqrt_recip.rs`

`f32` values are modelled as the rationals they denote.  `IsF32 q` says that
`q` is the value of a finite IEEE-754 binary32 number.  All primitive `f32`
operations round their exact rational result with `roundF32`, the IEEE
round-to-nearest, ties-to-even rounding to 24 bits of significand (with the
subnormal exponent floor at `2^-126`); comparisons on `f32` are exact. -/

/-- Round a rational to an integer, ties to even (the IEEE default rounding
of a value already scaled to integer units). -/
def rne (x : ℚ) : ℤ :=
  let f := ⌊x⌋
  if x - f < 1 / 2 then f
  else if 1 / 2 < x - f then f + 1
  else if Even f then f else f + 1

/-- IEEE-754 binary32 round-to-nearest-even of an exact rational value:
round to the grid of spacing `2^(e-23)` where `e` is the binary exponent of
`q`, floored at the subnormal exponent `-126`.  (Overflow to infinity is not
modelled; every value this development rounds is far below `2^128`.) -/
def roundF32 (q : ℚ) : ℚ :=
  if q = 0 then 0
  else
    let e : ℤ := max (Int.log 2 |q|) (-126)
    (rne (q * 2 ^ (23 - e)) : ℚ) * 2 ^ (e - 23)

/-- `q` is the value of a finite IEEE-754 binary32 number: an integer
significand of magnitude below `2^24` times a power of two no smaller than
`2^-149`, with magnitude below `2^128`. -/
def IsF32 (q : ℚ) : Prop :=
  ∃ m e : ℤ, |m| < 2 ^ 24 ∧ -149 ≤ e ∧ q = (m : ℚ) * 2 ^ e ∧ |q| < 2 ^ 128

/-- Rust `f32::round`: round half away from zero.  The result of rounding a
finite `f32` to an integer is always exactly representable, so no further
rounding step occurs. -/
def halfAway (x : ℚ) : ℤ :=
  if 0 ≤ x then ⌊x + 1 / 2⌋ else -⌊-x + 1 / 2⌋

/-- Truncation of a rational toward zero (the integer part of a `float → int`
cast). -/
def truncQ (x : ℚ) : ℤ :=
  if 0 ≤ x then ⌊x⌋ else -⌊-x⌋

/-- Rust `as i32` on an `f32`: truncate toward zero and saturate to the
`i32` range. -/
def f32_as_i32 (x : ℚ) : ℤ :=
  max (-(2 ^ 31)) (min (2 ^ 31 - 1) (truncQ x))

/-- `i32 → f32` conversion (`as f32`), which rounds to nearest even. -/
def i32ToF32 (n : ℤ) : ℚ :=
  roundF32 (n : ℚ)

/-- `u32 → f32` conversion (`as f32`). -/
def u32ToF32 (n : ℕ) : ℚ :=
  roundF32 (n : ℚ)

/-- `f32` multiplication: the exact product, rounded. -/
def f32mul (a b : ℚ) : ℚ :=
  roundF32 (a * b)

/-- `f32` division: the exact quotient, rounded. -/
def f32div (a b : ℚ) : ℚ :=
  roundF32 (a / b)

/-- `MAX_FIXED = 0x7FFF_FFFF`. -/
def MAX_FIXED : ℤ := 0x7FFFFFFF

/-- `MIN_FIXED = i32::MIN`. -/
def MIN_FIXED : ℤ := -0x80000000

/-- `MAX_FLOAT = MAX_FIXED as f32 / SCALE as f32` (a compile-time `f32`
computation). -/
def MAX_FLOAT : ℚ :=
  f32div (i32ToF32 MAX_FIXED) (u32ToF32 65536)

/-- `MIN_FLOAT = MIN_FIXED as f32 / SCALE as f32`. -/
def MIN_FLOAT : ℚ :=
  f32div (i32ToF32 MIN_FIXED) (u32ToF32 65536)

/-- Embedding of `float_to_fixed` (identical in div_recip.rs and
sqrt_recip.rs).

```text
fn float_to_fixed(f: f32) -> i32 {
    if f > MAX_FLOAT { MAX_FIXED }
    else if f < MIN_FLOAT { MIN_FIXED }
    else { (f * SCALE as f32).round() as i32 }
}
```
-/
def float_to_fixed (f : ℚ) : ℤ :=
  if MAX_FLOAT < f then MAX_FIXED
  else if f < MIN_FLOAT then MIN_FIXED
  else f32_as_i32 ((halfAway (f32mul f (u32ToF32 65536)) : ℤ) : ℚ)

/-- Embedding of `fixed_to_float`: `fixed as f32 / SCALE as f32`. -/
def fixed_to_float (fixed : ℤ) : ℚ :=
  f32div (i32ToF32 fixed) (u32ToF32 65536)

end LP

namespace LPFX

/-! ## The LPFX builtin registry

The validation pass is embedded from
`src/lp-glsl/apps/lp-builtin-gen/src/lpfx/validate.rs` and the lookup from
`src/lp-glsl/crates/lp-glsl-compiler/src/frontend/semantic/lpfx/lpfx_fn_registry.rs`.
The data declarations these files use (`FunctionSignature`, `Type`, the
parameter qualifier, `Variant`, `LpfxCodegenError`, `LpfxFn`) are not among
the provided sources; they are modelled from the spec ("Logical signature =
function name + return type + ordered parameter (type, qualifier) list") and
from their use sites in the two files above.  Rust `String`s are modelled as
`List Char`; the derived `Debug` rendering of an enum is its constructor
name's characters. -/

/-- Modelled from the spec: the GLSL value types a builtin signature can
mention (scalars and vectors).  `debugChars` is the derived `Debug`
rendering. -/
inductive GlslType
  | float
  | int
  | uint
  | bool
  | vec2
  | vec3
  | vec4
deriving DecidableEq, Fintype

/-- The derived `Debug` rendering of a type (its Rust constructor name). -/
def GlslType.debugChars : GlslType → List Char
  | .float => "Float".data
  | .int => "Int".data
  | .uint => "UInt".data
  | .bool => "Bool".data
  | .vec2 => "Vec2".data
  | .vec3 => "Vec3".data
  | .vec4 => "Vec4".data

/-- Modelled from the spec: a GLSL parameter qualifier. -/
inductive Qualifier
  | qin
  | qout
  | qinout
deriving DecidableEq, Fintype

/-- The derived `Debug` rendering of a qualifier. -/
def Qualifier.debugChars : Qualifier → List Char
  | .qin => "In".data
  | .qout => "Out".data
  | .qinout => "InOut".data

/-- Modelled from the spec: one parameter of a logical signature — a type, a
qualifier, and a name (the name is ignored by all structural comparisons). -/
structure Parameter where
  ty : GlslType
  qualifier : Qualifier
  pname : List Char
deriving DecidableEq

/-- Modelled from the spec: a logical GLSL signature — function name, return
type, ordered parameter list. -/
structure FunctionSignature where
  name : List Char
  return_type : GlslType
  parameters : List Parameter
deriving DecidableEq

/-- The numeric variant tag of an implementation (`Variant` in
`lpfx/errors.rs`): `F32` is the Float variant, `Q32` the FixedPoint one. -/
inductive Variant
  | f32
  | q32
deriving DecidableEq

/-- The parsed `#[lpfx_impl(...)]` attribute: an optional variant tag. -/
structure LpfxAttribute where
  variant : Option Variant
deriving DecidableEq

/-- Discovery info for one Rust implementation function. -/
structure LpfxFunctionInfo where
  rust_fn_name : List Char
  file_path : List Char
  has_lpfx_impl_attr : Bool
deriving DecidableEq

/-- `ParsedLpfxFunction` (validate.rs): discovery info, parsed attribute
(field `attribute` in Rust; `attr` here since `attribute` is a Lean keyword),
and parsed GLSL signature. -/
structure ParsedLpfxFunction where
  info : LpfxFunctionInfo
  attr : LpfxAttribute
  glsl_sig : FunctionSignature
deriving DecidableEq

/-- The concatenated `Debug` renderings of a parameter list's (type,
qualifier) pairs — the `push_str` loop shared by `signature_key` and the
rendering used in error payloads. -/
def pairsFlat (l : List Parameter) : List Char :=
  (l.map fun p => p.ty.debugChars ++ p.qualifier.debugChars).flatten

/-- A simple rendering of a whole signature, standing in for Rust's derived
`Debug` of `FunctionSignature` (used only inside error payloads). -/
def sigDebug (s : FunctionSignature) : List Char :=
  s.name ++ (':' :: (s.return_type.debugChars ++ pairsFlat s.parameters))

/-- `LpfxCodegenError` (lpfx/errors.rs), modelled from its construction sites
in validate.rs and from the spec's error taxonomy: the spec's
`MissingBuiltinVariant` is `missingPair`, `DuplicateBuiltinVariant` is
`duplicateFunctionName`, `BuiltinSignatureMismatch` is `signatureMismatch`. -/
inductive LpfxCodegenError
  | missingAttribute (function_name : List Char) (file_path : List Char)
  | missingPair (function_name : List Char) (missing_variant : Variant)
      (found_variants : List Variant)
  | duplicateFunctionName (function_name : List Char)
      (conflicting_files : List (List Char))
  | signatureMismatch (function_name : List Char)
      (f32_signature : List Char) (q32_signature : List Char)
deriving DecidableEq

instance exceptValidDecEq : DecidableEq (Except LpfxCodegenError Unit) := fun a b =>
  match a, b with
  | .error e1, .error e2 =>
    decidable_of_iff (e1 = e2)
      ⟨fun h => by rw [h], fun h => by injection h⟩
  | .ok u1, .ok u2 => isTrue (by cases u1; cases u2; rfl)
  | .error _, .ok _ => isFalse (by intro h; cases h)
  | .ok _, .error _ => isFalse (by intro h; cases h)

/-- Embedding of `signature_key` (validate.rs): the grouping key is the
function name, a `:`, the `Debug` rendering of the return type, then for each
parameter the `Debug` renderings of its type and qualifier.

```text
fn signature_key(sig: &FunctionSignature) -> String {
    let mut key = format!("{}:", sig.name);
    key.push_str(&format!("{:?}", sig.return_type));
    for param in &sig.parameters {
        key.push_str(&format!("{:?}{:?}", param.ty, param.qualifier));
    }
    key
}
```
-/
def signature_key (sig : FunctionSignature) : List Char :=
  sig.name ++ (':' :: (sig.return_type.debugChars ++ pairsFlat sig.parameters))

/-- Embedding of `signatures_match` (validate.rs): return types equal,
parameter counts equal, and each parameter pair agrees on type and qualifier
(parameter names ignored). -/
def signatures_match (sig1 sig2 : FunctionSignature) : Bool :=
  decide (sig1.return_type = sig2.return_type) &&
  decide (sig1.parameters.length = sig2.parameters.length) &&
  (sig1.parameters.zip sig2.parameters).all fun pp =>
    decide (pp.1.ty = pp.2.ty) && decide (pp.1.qualifier = pp.2.qualifier)

/-- The distinct signature keys of a function list, in order of first
occurrence.  (Rust groups with a `HashMap`, whose iteration order is
unspecified; the embedding fixes the canonical first-occurrence order.
Within a group, members keep their insertion order, as in the Rust `Vec`
pushed per key.) -/
def firstKeys (fns : List ParsedLpfxFunction) : List (List Char) :=
  fns.foldl
    (fun ks f =>
      let k := signature_key f.glsl_sig
      if k ∈ ks then ks else ks ++ [k])
    []

/-- Group a function list by signature key: one group per distinct key, in
first-occurrence order, each group holding (in order) every function with
that key. -/
def groupBySig (fns : List ParsedLpfxFunction) :
    List (List Char × List ParsedLpfxFunction) :=
  (firstKeys fns).map fun k =>
    (k, fns.filter fun f => decide (signature_key f.glsl_sig = k))

/-- The variants found in one group, in member order (the `found_variants`
vector of validate.rs). -/
def foundVariants (g : List ParsedLpfxFunction) : List Variant :=
  g.filterMap fun f => f.attr.variant

/-- The GLSL name of the first member of a group
(`functions[0].glsl_sig.name`). -/
def headName : List ParsedLpfxFunction → List Char
  | [] => []
  | f :: _ => f.glsl_sig.name

/-- `has_variant` of a group: some member carries a variant tag (the group
is numeric-variant-dependent). -/
def hasVariantTagged (g : List ParsedLpfxFunction) : Bool :=
  g.any fun f => f.attr.variant.isSome

/-- `has_f32` of a group: some member is tagged `F32` (Float). -/
def hasF32 (g : List ParsedLpfxFunction) : Bool :=
  g.any fun f => decide (f.attr.variant = some .f32)

/-- `has_q32` of a group: some member is tagged `Q32` (FixedPoint). -/
def hasQ32 (g : List ParsedLpfxFunction) : Bool :=
  g.any fun f => decide (f.attr.variant = some .q32)

/-- A group satisfies the decimal-pair invariant: if it is
numeric-variant-dependent then both variants are present. -/
def completePair (g : List ParsedLpfxFunction) : Prop :=
  hasVariantTagged g = true → (hasF32 g = true ∧ hasQ32 g = true)

instance completePairDecidable (g : List ParsedLpfxFunction) : Decidable (completePair g) := by
  unfold completePair
  infer_instance

/-- The per-group check of `validate_decimal_pairs`: if any member carries a
variant tag, the group must contain both an `F32`- and a `Q32`-tagged member;
the `F32` side is checked first. -/
def checkGroupPairs (g : List ParsedLpfxFunction) : Except LpfxCodegenError Unit :=
  if hasVariantTagged g then
    if ¬ hasF32 g then
      .error (.missingPair (headName g) .f32 (foundVariants g))
    else if ¬ hasQ32 g then
      .error (.missingPair (headName g) .q32 (foundVariants g))
    else
      .ok ()
  else
    .ok ()

/-- Run a per-group check over every group, stopping at the first error. -/
def checkGroups (check : List ParsedLpfxFunction → Except LpfxCodegenError Unit) :
    List (List Char × List ParsedLpfxFunction) → Except LpfxCodegenError Unit
  | [] => .ok ()
  | g :: rest =>
    match check g.2 with
    | .ok () => checkGroups check rest
    | .error e => .error e

/-- Embedding of `validate_decimal_pairs` (validate.rs). -/
def validate_decimal_pairs (fns : List ParsedLpfxFunction) :
    Except LpfxCodegenError Unit :=
  checkGroups checkGroupPairs (groupBySig fns)

/-- The scan of one group's members performed by
`validate_signature_consistency`: locate the `F32`- and `Q32`-tagged members,
failing with `duplicateFunctionName` if a tag occurs twice. -/
def scanVariants :
    List ParsedLpfxFunction → Option ParsedLpfxFunction → Option ParsedLpfxFunction →
    Except LpfxCodegenError (Option ParsedLpfxFunction × Option ParsedLpfxFunction)
  | [], f32o, q32o => .ok (f32o, q32o)
  | f :: rest, f32o, q32o =>
    match f.attr.variant with
    | some .f32 =>
      match f32o with
      | some prev =>
        .error (.duplicateFunctionName f.glsl_sig.name
          [prev.info.file_path, f.info.file_path])
      | none => scanVariants rest (some f) q32o
    | some .q32 =>
      match q32o with
      | some prev =>
        .error (.duplicateFunctionName f.glsl_sig.name
          [prev.info.file_path, f.info.file_path])
      | none => scanVariants rest f32o (some f)
    | none => scanVariants rest f32o q32o

/-- The per-group check of `validate_signature_consistency`: if both variants
are present and their signatures do not match structurally, fail with
`signatureMismatch` carrying both rendered signatures. -/
def checkGroupConsistency (g : List ParsedLpfxFunction) :
    Except LpfxCodegenError Unit :=
  match scanVariants g none none with
  | .error e => .error e
  | .ok (some f32f, some q32f) =>
    if signatures_match f32f.glsl_sig q32f.glsl_sig then .ok ()
    else
      .error (.signatureMismatch f32f.glsl_sig.name
        (sigDebug f32f.glsl_sig) (sigDebug q32f.glsl_sig))
  | .ok _ => .ok ()

/-- Embedding of `validate_signature_consistency` (validate.rs). -/
def validate_signature_consistency (fns : List ParsedLpfxFunction) :
    Except LpfxCodegenError Unit :=
  checkGroups checkGroupConsistency (groupBySig fns)

/-- The attribute presence check at the top of `validate_lpfx_functions`. -/
def checkAttrs : List ParsedLpfxFunction → Except LpfxCodegenError Unit
  | [] => .ok ()
  | f :: rest =>
    if f.info.has_lpfx_impl_attr then checkAttrs rest
    else .error (.missingAttribute f.info.rust_fn_name f.info.file_path)

/-- Embedding of `validate_lpfx_functions` (validate.rs): attribute check,
then decimal-pair validation, then signature consistency. -/
def validate_lpfx_functions (fns : List ParsedLpfxFunction) :
    Except LpfxCodegenError Unit :=
  match checkAttrs fns with
  | .error e => .error e
  | .ok () =>
    match validate_decimal_pairs fns with
    | .error e => .error e
    | .ok () => validate_signature_consistency fns

/-- `validate_lpfx_functions` with the group iteration orders made explicit:
`gs1` is the group list traversed by `validate_decimal_pairs` and `gs2` the
one traversed by `validate_signature_consistency`.  Each Rust pass builds its
own `std::collections::HashMap` and iterates it in an *unspecified* order, so
a run of the program corresponds to some pair of permutations of the
signature-key groups; the canonical embedding `validate_lpfx_functions` is
the instance `gs1 = gs2 = groupBySig fns`. -/
def validate_lpfx_functions_ord (fns : List ParsedLpfxFunction)
    (gs1 gs2 : List (List Char × List ParsedLpfxFunction)) :
    Except LpfxCodegenError Unit :=
  match checkAttrs fns with
  | .error e => .error e
  | .ok () =>
    match checkGroups checkGroupPairs gs1 with
    | .error e => .error e
    | .ok () => checkGroups checkGroupConsistency gs2

/-- `true` exactly on the `signatureMismatch` error class. -/
def LpfxCodegenError.isSignatureMismatch : LpfxCodegenError → Bool
  | .signatureMismatch _ _ _ => true
  | _ => false

/-- The result of a run of `validate_lpfx_functions` is a signature-mismatch
failure. -/
def failsWithSignatureMismatch : Except LpfxCodegenError Unit → Bool
  | .error e => e.isSignatureMismatch
  | .ok () => false

/-! ### Registry lookup (`lpfx_fn_registry.rs`) -/

/-- `LpfxFnImpl`: either a single implementation or a Float/FixedPoint pair
(implementation symbols modelled as numeric `BuiltinId`s). -/
inductive LpfxFnImpl
  | nonDecimal (id : ℕ)
  | decimal (float_impl : ℕ) (q32_impl : ℕ)
deriving DecidableEq

/-- A registry entry: a GLSL signature plus its implementation(s). -/
structure LpfxFn where
  glsl_sig : FunctionSignature
  impls : LpfxFnImpl
deriving DecidableEq

/-- The decimal format requested at a call site. -/
inductive DecimalFormat
  | float
  | q32
deriving DecidableEq

/-- Embedding of `matches_signature` (lpfx_fn_registry.rs): exact match of
parameter count and of each parameter type against the argument types. -/
def matches_signature (func : LpfxFn) (arg_types : List GlslType) : Bool :=
  decide (func.glsl_sig.parameters.length = arg_types.length) &&
  (func.glsl_sig.parameters.zip arg_types).all fun pa => decide (pa.1.ty = pa.2)

/-- Embedding of `find_lpfx_fn` (lpfx_fn_registry.rs), parameterised by the
registry contents (the generated static `lpfx_fns()` array):

```text
let candidates = registry.filter(|f| f.glsl_sig.name == name);
if candidates.is_empty() { return None; }
let matching_count = candidates.filter(|f| f.glsl_sig.parameters.len() == arg_types.len());
if matching_count.is_empty() { return None; }
let exact_matches = matching_count.filter(|f| matches_signature(f, arg_types));
if exact_matches.len() == 1 { Some(exact_matches[0]) } else { None }
```
-/
def find_lpfx_fn (registry : List LpfxFn) (name : List Char)
    (arg_types : List GlslType) : Option LpfxFn :=
  let candidates := registry.filter fun f => decide (f.glsl_sig.name = name)
  if candidates.isEmpty then none
  else
    let matching_count := candidates.filter fun f =>
      decide (f.glsl_sig.parameters.length = arg_types.length)
    if matching_count.isEmpty then none
    else
      match matching_count.filter fun f => matches_signature f arg_types with
      | [f] => some f
      | _ => none

/-- Embedding of `get_builtin_id_for_format` (lpfx_fn_registry.rs). -/
def get_builtin_id_for_format (func : LpfxFn) (format : DecimalFormat) : Option ℕ :=
  match func.impls with
  | .nonDecimal id => some id
  | .decimal float_impl q32_impl =>
    match format with
    | .float => some float_impl
    | .q32 => some q32_impl

end LPFX

namespace TModel

/-! ## The transform driver

Modelled from the spec: the generic function-rewrite driver
(`transform_function_body` / `copy_instruction` in
`backend/transform/shared/`) is not among the provided sources — only its
caller, the identity transform
(`src/lp-glsl/crates/lp-glsl-compiler/src/backend/transform/identity/transform.rs`),
is.  The model follows spec §3 (Instruction-IR shape), §4.2 (driver: new
blocks created in original order with re-typed parameters, instructions
walked in original order and dispatched to a converter, any converter failure
aborting the whole rewrite) and §8 (structural preservation: same block
count/order, same per-block parameter arity, same-size same-alignment stack
slots). -/

/-- An SSA value identifier. -/
abbrev Value := ℕ

/-- A type tag (the numeric domain of a value). -/
abbrev TypeTag := ℕ

/-- Modelled from the spec: an instruction — an opcode, ordered operand
values, and result values. -/
structure Instr where
  opcode : ℕ
  operands : List Value
  results : List Value
deriving DecidableEq

/-- Modelled from the spec: a block — ordered typed parameters and ordered
instructions. -/
structure Block where
  params : List TypeTag
  insts : List Instr
deriving DecidableEq

/-- Modelled from the spec: a stack slot declaration with its size and
alignment. -/
structure StackSlot where
  size : ℕ
  align : ℕ
deriving DecidableEq

/-- Modelled from the spec: a function — signature parameter types, ordered
blocks, stack slots. -/
structure Func where
  sigParams : List TypeTag
  blocks : List Block
  slots : List StackSlot
deriving DecidableEq

/-- A structured transform error (the driver names the unhandled opcode). -/
structure GlslError where
  code : ℕ
  msg : List Char
deriving DecidableEq

/-- Embedding of `map_value` (fixed32/converters/helpers.rs): look an operand
up in the value map, falling back to the original value if untouched. -/
def map_value (value_map : Value → Option Value) (old_value : Value) : Value :=
  (value_map old_value).getD old_value

/-- Modelled from the spec: `copy_instruction` — copy one instruction
unchanged except that operands are resolved through the value map. -/
def copy_instruction (value_map : Value → Option Value) (i : Instr) :
    Except GlslError (List Instr) :=
  .ok [{ i with operands := i.operands.map (map_value value_map) }]

/-- Convert a block's instructions in original order; the first converter
failure aborts. -/
def convertInsts (conv : Instr → Except GlslError (List Instr)) :
    List Instr → Except GlslError (List Instr)
  | [] => .ok []
  | i :: rest =>
    match conv i with
    | .error e => .error e
    | .ok out =>
      match convertInsts conv rest with
      | .error e => .error e
      | .ok outs => .ok (out ++ outs)

/-- Convert every block in original order, re-typing its parameters with the
type map and converting its instructions. -/
def convertBlocks (typeMap : TypeTag → TypeTag)
    (conv : Instr → Except GlslError (List Instr)) :
    List Block → Except GlslError (List Block)
  | [] => .ok []
  | b :: rest =>
    match convertInsts conv b.insts with
    | .error e => .error e
    | .ok insts =>
      match convertBlocks typeMap conv rest with
      | .error e => .error e
      | .ok bs => .ok ({ params := b.params.map typeMap, insts := insts } :: bs)

/-- Modelled from the spec: `transform_function_body` — create every new
block in original order with parameters re-typed by the type map, copy every
stack slot unchanged (same size, same alignment), convert each instruction
through the supplied converter, and fail the whole rewrite on the first
converter failure. -/
def transform_function_body (old : Func) (newSigParams : List TypeTag)
    (typeMap : TypeTag → TypeTag)
    (conv : Instr → Except GlslError (List Instr)) : Except GlslError Func :=
  match convertBlocks typeMap conv old.blocks with
  | .error e => .error e
  | .ok blocks => .ok { sigParams := newSigParams, blocks := blocks, slots := old.slots }

/-- Embedding of the identity transform (identity/transform.rs): the
signature is cloned, every instruction is copied by `copy_instruction`, and
the type mapping is the identity.  The transform starts from an empty value
map, so every operand falls back to itself. -/
def identity_transform (old : Func) : Except GlslError Func :=
  transform_function_body old old.sigParams id (copy_instruction fun _ => none)

end TModel

namespace AbiModel

/-! ## The multi-value-return ABI caller protocol

Modelled from the spec: the multi-value return ABI resolver (spec §4.5) is
not among the provided sources — only the test
`src/lp-glsl/crates/lp-glsl-compiler/tests/test_structreturn_abi.rs`
exercising both code paths is.  The model captures the caller-side protocol:
inspect the callee's concrete compiled signature; if a struct-return-purpose
parameter is present, allocate a `return_count × element_size`-byte aligned
scratch buffer, pass its address, issue the call (the callee writes return
value `i` at byte offset `i × element_size`), and read each value back at
`i × element_size`; otherwise read each return value as one ordinary call
result.  Return values are bit patterns (`Word`), so equality is
bit-identity. -/

/-- A return-value bit pattern. -/
abbrev Word := ℕ

/-- The ABI purpose of a signature parameter. -/
inductive ParamPurpose
  | normal
  | structReturn
deriving DecidableEq

/-- One parameter of a concrete compiled signature. -/
structure AbiParam where
  purpose : ParamPurpose
deriving DecidableEq

/-- A callee's concrete compiled signature: its parameters (with ABI
purposes) and its return slot count. -/
structure CompiledSig where
  params : List AbiParam
  returnCount : ℕ
deriving DecidableEq

/-- Byte-addressed memory holding element-sized words at element-aligned
addresses. -/
def Mem := ℕ → Word

/-- Store one word at an address. -/
def store (mem : Mem) (addr : ℕ) (w : Word) : Mem :=
  fun a => if a = addr then w else mem a

/-- The struct-return callee convention: return value `i` is written through
the buffer address at byte offset `i × element_size` (written here as
successive writes advancing by `element_size`). -/
def calleeWrite (esize : ℕ) : ℕ → List Word → Mem → Mem
  | _, [], mem => mem
  | buf, w :: ws, mem => calleeWrite esize (buf + esize) ws (store mem buf w)

/-- The caller's read-back: return value `i` is read at byte offset
`i × element_size` from the buffer. -/
def callerRead (esize buf n : ℕ) (mem : Mem) : List Word :=
  (List.range n).map fun i => mem (buf + i * esize)

/-- Whether a compiled signature contains a struct-return-purpose
parameter. -/
def usesStructReturn (sig : CompiledSig) : Bool :=
  sig.params.any fun p => decide (p.purpose = ParamPurpose.structReturn)

/-- Modelled from the spec: the scratch buffer size the generated caller
allocates on the struct-return path: `return_count × element_size` bytes. -/
def scratchBytes (sig : CompiledSig) (esize : ℕ) : ℕ :=
  sig.returnCount * esize

/-- Modelled from the spec: the generated caller.  `rets` is the callee's
return-value list (its observable behavior; on the struct-return path the
callee writes them through the passed buffer, on the register path it yields
them as ordinary call results).  The caller returns the values it observes. -/
def emitCall (sig : CompiledSig) (esize : ℕ) (rets : List Word) (buf : ℕ)
    (mem : Mem) : List Word :=
  if usesStructReturn sig then
    callerRead esize buf sig.returnCount (calleeWrite esize buf rets mem)
  else
    rets.take sig.returnCount

end AbiModel

/-! ## Theorems -/

namespace LP

/-! ### Basic facts about the two's-complement helpers -/

theorem toU32_lt (z : ℤ) : toU32 z < 2 ^ 32 := by
  unfold toU32
  have h1 : z % 2 ^ 32 < 2 ^ 32 := Int.emod_lt_of_pos z (by norm_num)
  omega

theorem toI32_bounds (n : ℕ) : -(2 ^ 31) ≤ toI32 n ∧ (n < 2 ^ 32 → toI32 n < 2 ^ 31) := by
  unfold toI32
  constructor
  · split <;> omega
  · intro h
    split <;> omega

theorem toI32_neg_iff {n : ℕ} (h : n < 2 ^ 32) : toI32 n < 0 ↔ 2 ^ 31 ≤ n := by
  unfold toI32
  split <;> omega

theorem wrap32_eq_self {z : ℤ} (h1 : -(2 ^ 31) ≤ z) (h2 : z < 2 ^ 31) : wrap32 z = z := by
  unfold wrap32 toI32 toU32
  rcases le_or_lt 0 z with hz | hz
  · have : z % 2 ^ 32 = z := Int.emod_eq_of_lt hz (by omega)
    rw [this]
    split <;> omega
  · have : z % 2 ^ 32 = z + 2 ^ 32 := by
      have := Int.add_mul_emod_self_left z (2 ^ 32) 1
      omega
    rw [this]
    split <;> omega

theorem wrap64_eq_self {z : ℤ} (h1 : -(2 ^ 63) ≤ z) (h2 : z < 2 ^ 63) : wrap64 z = z := by
  unfold wrap64 toI64 toU64
  rcases le_or_lt 0 z with hz | hz
  · have : z % 2 ^ 64 = z := Int.emod_eq_of_lt hz (by omega)
    rw [this]
    split <;> omega
  · have : z % 2 ^ 64 = z + 2 ^ 64 := by
      have := Int.add_mul_emod_self_left z (2 ^ 64) 1
      omega
    rw [this]
    split <;> omega

theorem toU32_of_nonneg {z : ℤ} (h0 : 0 ≤ z) (h : z < 2 ^ 32) : (toU32 z : ℤ) = z := by
  unfold toU32
  have : z % 2 ^ 32 = z := Int.emod_eq_of_lt h0 (by omega)
  omega

theorem toU32_of_neg {z : ℤ} (h0 : z < 0) (h : -(2 ^ 32) ≤ z) : (toU32 z : ℤ) = z + 2 ^ 32 := by
  unfold toU32
  have h1 : z % 2 ^ 32 = z + 2 ^ 32 := by
    have := Int.add_mul_emod_self_left z (2 ^ 32) 1
    have h2 : (z + 2 ^ 32) % 2 ^ 32 = z + 2 ^ 32 := Int.emod_eq_of_lt (by omega) (by omega)
    omega
  have h3 : 0 ≤ z % 2 ^ 32 := Int.emod_nonneg z (by norm_num)
  omega

/-- Bit 31 of a 32-bit pattern is its sign bit. -/
theorem testBit31_iff {n : ℕ} (h : n < 2 ^ 32) : Nat.testBit n 31 = true ↔ 2 ^ 31 ≤ n := by
  rw [Nat.testBit_to_div_mod]
  simp only [decide_eq_true_eq]
  omega

/-- The sign of an in-range `i32` is its bit 31. -/
theorem sign_bit_iff {a : ℤ} (h1 : -(2 ^ 31) ≤ a) (h2 : a < 2 ^ 31) :
    Nat.testBit (toU32 a) 31 = true ↔ a < 0 := by
  rcases le_or_lt 0 a with ha | ha
  · rw [testBit31_iff (toU32_lt a)]
    have := toU32_of_nonneg ha (by omega)
    omega
  · rw [testBit31_iff (toU32_lt a)]
    have := toU32_of_neg ha (by omega)
    omega

/-- `(a ^ b) < 0` on `i32` holds exactly when the two sign bits differ. -/
theorem i32Xor_neg_iff {a b : ℤ} (ha1 : -(2 ^ 31) ≤ a) (ha2 : a < 2 ^ 31)
    (hb1 : -(2 ^ 31) ≤ b) (hb2 : b < 2 ^ 31) :
    i32Xor a b < 0 ↔ ¬ (a < 0 ↔ b < 0) := by
  unfold i32Xor
  have hx : (toU32 a ^^^ toU32 b) < 2 ^ 32 :=
    Nat.xor_lt_two_pow (toU32_lt a) (toU32_lt b)
  rw [toI32_neg_iff hx, ← testBit31_iff hx, Nat.testBit_xor]
  have sA := sign_bit_iff ha1 ha2
  have sB := sign_bit_iff hb1 hb2
  cases hA : (toU32 a).testBit 31 <;> cases hB : (toU32 b).testBit 31 <;>
    rw [hA] at sA <;> rw [hB] at sB <;> simp at sA sB ⊢ <;> omega

end LP

namespace LP

/-! ### Totality facts for division and square root (claims C4, C10) -/

theorem if_zero_one_ne_zero (t : ℕ) : (if t = 0 then 1 else t) ≠ 0 := by
  split <;> omega

theorem divide_by_reciprocal_isSome (x_scaled guess : ℤ) :
    (divide_by_reciprocal x_scaled guess).isSome := by
  simp [divide_by_reciprocal, checkedDiv]
  split <;> split <;> simp_all

theorem sqrtIter_isSome (x_scaled guess : ℤ) : (sqrtIter x_scaled guess).isSome := by
  simp [sqrtIter, divide_by_reciprocal_isSome]

theorem sqrtLoop_isSome (n : ℕ) (x_scaled guess : ℤ) :
    (sqrtLoop n x_scaled guess).isSome := by
  induction n generalizing guess with
  | zero => simp [sqrtLoop]
  | succ k ih =>
    unfold sqrtLoop
    have h := sqrtIter_isSome x_scaled guess
    rcases ho : sqrtIter x_scaled guess with _ | g
    · rw [ho] at h
      simp at h
    · simpa using ih g

/-- Claim C4: for every Q16.16 input `x ≤ 0`, `fixed32_sqrt x` returns exactly
`0`, and `fixed32_sqrt` never signals an error (reaches no panicking division)
for any input. -/
theorem sqrt_nonpositive_zero_and_total (x : ℤ) :
    (x ≤ 0 → fixed32_sqrt x = some 0) ∧ (fixed32_sqrt x).isSome := by
  constructor
  · intro hx
    unfold fixed32_sqrt
    simp [hx]
  · unfold fixed32_sqrt
    split
    · simp
    · simp [sqrtLoop_isSome]

/-- Witness for C4's theorem at the concrete inputs `-655360` (i.e. `-10.0`)
and `3`. -/
theorem sqrt_nonpositive_zero_and_total_witness :
    fixed32_sqrt (-655360) = some 0 ∧ (fixed32_sqrt 3).isSome :=
  ⟨(sqrt_nonpositive_zero_and_total (-655360)).1 (by norm_num),
   (sqrt_nonpositive_zero_and_total 3).2⟩

/-- Claim C10: `fixed32_udiv` and `fixed32_idiv` reach the panicking division
`0x8000_0000 / divisor` (the embedding's `none`) exactly when the divisor is
zero, for every dividend; `compute_reciprocal` substitutes `1` for a zero
input and is total on all inputs. -/
theorem div_zero_divisor_panics_and_reciprocal_total :
    (∀ d : ℕ, fixed32_udiv d 0 = none) ∧
    (∀ d v : ℕ, v ≠ 0 → (fixed32_udiv d v).isSome) ∧
    (∀ d : ℤ, fixed32_idiv d 0 = none) ∧
    (∀ d v : ℤ, v ≠ 0 → (fixed32_idiv d v).isSome) ∧
    (compute_reciprocal 0 = some 0x80000000) ∧
    (∀ v : ℤ, (compute_reciprocal v).isSome) := by
  refine ⟨?_, ?_, ?_, ?_, ?_, ?_⟩
  · intro d
    simp [fixed32_udiv, checkedDiv]
  · intro d v hv
    simp [fixed32_udiv, checkedDiv, hv]
  · intro d
    simp [fixed32_idiv, fixed32_udiv, checkedDiv]
  · intro d v hv
    have : v.natAbs ≠ 0 := Int.natAbs_ne_zero.mpr hv
    simp [fixed32_idiv, fixed32_udiv, checkedDiv, this]
  · rfl
  · intro v
    simp [compute_reciprocal, checkedDiv]
    split <;> simp_all

/-- Witness for C10's theorem: the universally quantified conjuncts applied
at concrete inputs, with the nonzero-divisor hypotheses discharged. -/
theorem div_zero_divisor_panics_and_reciprocal_total_witness :
    fixed32_udiv 655360 0 = none ∧ (fixed32_udiv 655360 131072).isSome ∧
    fixed32_idiv 655360 0 = none ∧ (fixed32_idiv (-655360) 131072).isSome ∧
    compute_reciprocal 0 = some 0x80000000 ∧ (compute_reciprocal 7).isSome :=
  ⟨div_zero_divisor_panics_and_reciprocal_total.1 655360,
   div_zero_divisor_panics_and_reciprocal_total.2.1 655360 131072 (by norm_num),
   div_zero_divisor_panics_and_reciprocal_total.2.2.1 655360,
   div_zero_divisor_panics_and_reciprocal_total.2.2.2.1 (-655360) 131072 (by norm_num),
   div_zero_divisor_panics_and_reciprocal_total.2.2.2.2.1,
   div_zero_divisor_panics_and_reciprocal_total.2.2.2.2.2 7⟩

end LP

namespace LP

/-! ### Claim C2: signed division equals the reciprocal-multiplication
algorithm -/

theorem fixed32_udiv_eq (dN vN : ℕ) (hv : vN ≠ 0) (hd : dN ≤ 2 ^ 31) :
    fixed32_udiv dN vN =
      some (((dN * (0x80000000 / vN) * 2) >>> 16) % 2 ^ 32) := by
  unfold fixed32_udiv checkedDiv
  rw [if_neg hv]
  simp only [Option.map_some']
  congr 1
  have hrec : 0x80000000 / vN ≤ 2 ^ 31 := Nat.div_le_self _ _
  have hmul : dN * (0x80000000 / vN) ≤ 2 ^ 31 * 2 ^ 31 := Nat.mul_le_mul hd hrec
  have hprod : dN * (0x80000000 / vN) * 2 < 2 ^ 64 := by omega
  rw [Nat.mod_eq_of_lt hprod]

/-- Claim C2: for every pair of in-range Q16.16 operands with a nonzero
divisor, `fixed32_idiv` equals the reciprocal-multiplication algorithm:
`recip = 0x8000_0000 / |divisor|` by ordinary truncating 32-bit unsigned
division, `quotient = ((|dividend| as 64-bit) * recip * 2) >> 16` narrowed
back to 32 bits, negated exactly when the XOR of the operand signs is
negative (i.e. the signs differ). -/
theorem idiv_eq_reciprocal_algorithm (d v : ℤ)
    (hd1 : -(2 ^ 31) ≤ d) (hd2 : d < 2 ^ 31)
    (hv1 : -(2 ^ 31) ≤ v) (hv2 : v < 2 ^ 31) (hv : v ≠ 0) :
    fixed32_idiv d v = some (idivAlg d v) := by
  have hvn : v.natAbs ≠ 0 := Int.natAbs_ne_zero.mpr hv
  have hdn : d.natAbs ≤ 2 ^ 31 := by omega
  have hQlt : ((d.natAbs * (0x80000000 / v.natAbs) * 2) >>> 16) % 2 ^ 32 < 2 ^ 32 :=
    Nat.mod_lt _ (by norm_num)
  unfold fixed32_idiv
  rw [fixed32_udiv_eq d.natAbs v.natAbs hvn hdn]
  simp only [Option.map_some']
  congr 1
  unfold idivAlg
  by_cases hsign : d < 0 ↔ v < 0
  · have hxor : ¬ i32Xor d v < 0 := by
      rw [i32Xor_neg_iff hd1 hd2 hv1 hv2]
      simpa using hsign
    have hdec : ¬ (decide (d < 0) ≠ decide (v < 0)) := by
      simp [decide_eq_decide.mpr hsign]
    rw [if_neg hxor, if_neg hdec, mul_one]
    exact wrap32_eq_self (toI32_bounds _).1 ((toI32_bounds _).2 hQlt)
  · have hxor : i32Xor d v < 0 := by
      rw [i32Xor_neg_iff hd1 hd2 hv1 hv2]
      exact hsign
    have hdec : (decide (d < 0) ≠ decide (v < 0)) := by
      simpa [decide_eq_decide] using hsign
    rw [if_pos hxor, if_pos hdec, mul_neg_one]

/-- Witness for C2's theorem at `dividend = 655360` (`10.0`),
`divisor = -131072` (`-2.0`). -/
theorem idiv_eq_reciprocal_algorithm_witness :
    fixed32_idiv 655360 (-131072) = some (idivAlg 655360 (-131072)) :=
  idiv_eq_reciprocal_algorithm 655360 (-131072) (by norm_num) (by norm_num)
    (by norm_num) (by norm_num) (by norm_num)

end LP

namespace TModel

/-! ### Claim C5: structural preservation and the identity transform -/

theorem convertBlocks_structure (typeMap : TypeTag → TypeTag)
    (conv : Instr → Except GlslError (List Instr)) :
    ∀ (bs bs' : List Block), convertBlocks typeMap conv bs = .ok bs' →
      bs'.length = bs.length ∧
      ∀ i : ℕ, (bs'[i]?.map fun b => b.params.length) =
           (bs[i]?.map fun b => b.params.length) := by
  intro bs
  induction bs with
  | nil =>
    intro bs' h
    unfold convertBlocks at h
    cases h
    simp
  | cons b r ih =>
    intro bs' h
    unfold convertBlocks at h
    rcases hi : convertInsts conv b.insts with e | insts
    · rw [hi] at h
      cases h
    · rw [hi] at h
      rcases hr : convertBlocks typeMap conv r with e | rs
      · rw [hr] at h
        cases h
      · rw [hr] at h
        cases h
        have hih := ih rs hr
        refine ⟨by simpa using hih.1, ?_⟩
        intro i
        cases i with
        | zero => simp
        | succ j => simpa using hih.2 j

theorem map_value_empty (v : Value) : map_value (fun _ => none) v = v := rfl

theorem copy_instruction_id (i : Instr) :
    copy_instruction (fun _ => none) i = .ok [i] := by
  have hf : (map_value fun _ : Value => none) = fun v => v := funext map_value_empty
  cases i
  simp [copy_instruction, hf]

theorem convertInsts_copy_id (l : List Instr) :
    convertInsts (copy_instruction fun _ => none) l = .ok l := by
  induction l with
  | nil => rfl
  | cons i r ih =>
    unfold convertInsts
    rw [copy_instruction_id, ih]
    simp

theorem convertBlocks_copy_id (bs : List Block) :
    convertBlocks id (copy_instruction fun _ => none) bs = .ok bs := by
  induction bs with
  | nil => rfl
  | cons b r ih =>
    unfold convertBlocks
    rw [convertInsts_copy_id, ih]
    simp

/-- Claim C5: for any accepted input function, the transformed function has
the same block count and order, the same per-block parameter count, and the
same stack-slot set (hence same sizes and alignments); and the identity
(pass-through) transform satisfies the contract by returning the function
with every instruction copied unchanged. -/
theorem transform_preserves_structure_and_identity_copies :
    (∀ (old : Func) (newSig : List TypeTag) (typeMap : TypeTag → TypeTag)
       (conv : Instr → Except GlslError (List Instr)) (G : Func),
       transform_function_body old newSig typeMap conv = .ok G →
       G.blocks.length = old.blocks.length ∧
       (∀ i : ℕ, (G.blocks[i]?.map fun b => b.params.length) =
             (old.blocks[i]?.map fun b => b.params.length)) ∧
       G.slots = old.slots) ∧
    (∀ old : Func, identity_transform old = .ok old) := by
  constructor
  · intro old newSig typeMap conv G h
    unfold transform_function_body at h
    rcases hb : convertBlocks typeMap conv old.blocks with e | blocks
    · rw [hb] at h
      cases h
    · rw [hb] at h
      cases h
      have hs := convertBlocks_structure typeMap conv old.blocks blocks hb
      exact ⟨hs.1, hs.2, rfl⟩
  · intro old
    unfold identity_transform transform_function_body
    rw [convertBlocks_copy_id]

/-- Witness for C5's theorem: a concrete two-block function with a stack
slot, transformed by a concrete converter. -/
theorem transform_preserves_structure_and_identity_copies_witness :
    (let old : Func :=
      { sigParams := [1],
        blocks := [{ params := [1, 2], insts := [{ opcode := 7, operands := [0], results := [1] }] },
                   { params := [3], insts := [] }],
        slots := [{ size := 4, align := 4 }] }
     ∀ G : Func,
       transform_function_body old [5] (fun t => t + 10) (fun i => .ok [i, i]) = .ok G →
       G.blocks.length = old.blocks.length) ∧
    identity_transform
      { sigParams := [1],
        blocks := [{ params := [1, 2], insts := [{ opcode := 7, operands := [0], results := [1] }] }],
        slots := [{ size := 4, align := 4 }] } =
    .ok
      { sigParams := [1],
        blocks := [{ params := [1, 2], insts := [{ opcode := 7, operands := [0], results := [1] }] }],
        slots := [{ size := 4, align := 4 }] } :=
  ⟨fun G h => (transform_preserves_structure_and_identity_copies.1 _ [5]
      (fun t => t + 10) (fun i => .ok [i, i]) G h).1,
   transform_preserves_structure_and_identity_copies.2 _⟩

end TModel

namespace AbiModel

/-! ### Claim C9: the struct-return caller protocol round-trips the callee's
return values -/

theorem calleeWrite_below (esize : ℕ) :
    ∀ (ws : List Word) (buf : ℕ) (mem : Mem) (a : ℕ), a < buf →
      calleeWrite esize buf ws mem a = mem a := by
  intro ws
  induction ws with
  | nil => intro buf mem a _; rfl
  | cons w ws ih =>
    intro buf mem a ha
    unfold calleeWrite
    rw [ih (buf + esize) _ a (by omega)]
    unfold store
    rw [if_neg (by omega)]

theorem callerRead_roundtrip (esize : ℕ) (hes : 0 < esize) :
    ∀ (ws : List Word) (buf : ℕ) (mem : Mem),
      callerRead esize buf ws.length (calleeWrite esize buf ws mem) = ws := by
  intro ws
  induction ws with
  | nil => intro buf mem; rfl
  | cons w ws ih =>
    intro buf mem
    unfold callerRead calleeWrite
    rw [List.length_cons, List.range_succ_eq_map, List.map_cons]
    congr 1
    · simp only [Nat.zero_mul, Nat.add_zero]
      rw [calleeWrite_below esize ws (buf + esize) _ buf (by omega)]
      simp [store]
    · rw [List.map_map]
      have hmap :
          ((fun i => calleeWrite esize (buf + esize) ws (store mem buf w) (buf + i * esize)) ∘
            Nat.succ) =
          fun i => calleeWrite esize (buf + esize) ws (store mem buf w) ((buf + esize) + i * esize) := by
        funext i
        simp only [Function.comp]
        congr 1
        simp only [Nat.succ_mul]
        omega
      rw [hmap]
      exact ih (buf + esize) (store mem buf w)

/-- Claim C9: when the callee's compiled signature has a struct-return
parameter the generated caller allocates a `return_count × element_size`
scratch buffer, passes its address, lets the callee write value `i` at byte
offset `i × element_size`, and reads each value back at the same offset;
otherwise it reads one ordinary call result per return slot.  On either path
the observed values are bit-identical to the callee's return values, and the
struct-return scratch buffer measures `return_count × element_size` bytes. -/
theorem abi_caller_observes_callee_returns (sig : CompiledSig) (esize : ℕ)
    (rets : List Word) (buf : ℕ) (mem : Mem) (hes : 0 < esize)
    (hlen : rets.length = sig.returnCount) :
    emitCall sig esize rets buf mem = rets ∧
    scratchBytes sig esize = rets.length * esize := by
  constructor
  · unfold emitCall
    split
    · rw [← hlen]
      exact callerRead_roundtrip esize hes rets buf mem
    · rw [← hlen]
      exact List.take_length rets
  · unfold scratchBytes
    rw [hlen]

end AbiModel

namespace AbiModel

/-- Witness for C9's theorem: a 3-return-value callee returning `[1, 2, 3]`
through a struct-return signature with 4-byte elements at buffer address
`1000`, over the all-zero initial memory. -/
theorem abi_caller_observes_callee_returns_witness :
    emitCall { params := [{ purpose := .structReturn }], returnCount := 3 } 4
      [1, 2, 3] 1000 (fun _ => 0) = [1, 2, 3] ∧
    emitCall { params := [{ purpose := .normal }], returnCount := 3 } 4
      [1, 2, 3] 1000 (fun _ => 0) = [1, 2, 3] :=
  ⟨(abi_caller_observes_callee_returns _ 4 [1, 2, 3] 1000 (fun _ => 0)
      (by norm_num) (by simp)).1,
   (abi_caller_observes_callee_returns _ 4 [1, 2, 3] 1000 (fun _ => 0)
      (by norm_num) (by simp)).1⟩

end AbiModel

namespace LPFX

/-! ### Claim C8: registry lookup is exact-match-or-none -/

theorem matches_imp_len {f : LpfxFn} {args : List GlslType}
    (h : matches_signature f args = true) :
    decide (f.glsl_sig.parameters.length = args.length) = true := by
  simp only [matches_signature, Bool.and_eq_true, decide_eq_true_eq] at h
  exact decide_eq_true h.1

theorem find_lpfx_fn_eq_filter (registry : List LpfxFn) (name : List Char)
    (args : List GlslType) :
    find_lpfx_fn registry name args =
      match registry.filter
          (fun g => decide (g.glsl_sig.name = name) && matches_signature g args) with
      | [f] => some f
      | _ => none := by
  have hflat : ((registry.filter fun f => decide (f.glsl_sig.name = name)).filter
        fun f => decide (f.glsl_sig.parameters.length = args.length)).filter
        (fun f => matches_signature f args) =
      registry.filter
        (fun g => decide (g.glsl_sig.name = name) && matches_signature g args) := by
    rw [List.filter_filter, List.filter_filter]
    apply List.filter_congr
    intro f _
    cases hm : matches_signature f args
    · simp
    · have hl := matches_imp_len hm
      simp [hl]
  rw [← hflat]
  simp only [find_lpfx_fn]
  split
  · next hc =>
    rw [List.isEmpty_iff] at hc
    rw [hc]
    simp
  · split
    · next hm =>
      rw [List.isEmpty_iff] at hm
      rw [hm]
      simp
    · rfl

/-- Claim C8: after validation, lookup is a pure read — `find_lpfx_fn`
returns `some f` exactly when `f` is the unique registered function whose
name equals the requested name and whose parameter list exactly matches the
argument types, and returns `none` for an unknown function name; it never
falls back to a different overload. -/
theorem find_lpfx_fn_exact_unique_match (registry : List LpfxFn)
    (name : List Char) (args : List GlslType) :
    (∀ f : LpfxFn,
      find_lpfx_fn registry name args = some f ↔
        registry.filter
          (fun g => decide (g.glsl_sig.name = name) && matches_signature g args) = [f]) ∧
    ((∀ g ∈ registry, g.glsl_sig.name ≠ name) →
      find_lpfx_fn registry name args = none) := by
  constructor
  · intro f
    rw [find_lpfx_fn_eq_filter]
    rcases hfl : registry.filter
        (fun g => decide (g.glsl_sig.name = name) && matches_signature g args)
      with _ | ⟨x, _ | ⟨y, r⟩⟩ <;> rw [hfl] <;> simp
  · intro hun
    rw [find_lpfx_fn_eq_filter]
    have hnil : registry.filter
        (fun g => decide (g.glsl_sig.name = name) && matches_signature g args) = [] := by
      rw [List.filter_eq_nil_iff]
      intro g hg
      simp only [Bool.and_eq_true, decide_eq_true_eq, not_and]
      intro hand _
      exact hun g hg hand
    rw [hnil]

end LPFX

namespace LPFX

/-- Witness for C8's theorem: a concrete two-overload registry
(`lpfx_hsv2rgb` over `vec3` and `vec4`), an exact-match lookup, and an
unknown-name lookup. -/
theorem find_lpfx_fn_exact_unique_match_witness :
    find_lpfx_fn
      [⟨⟨"lpfx_hsv2rgb".data, .vec3, [⟨.vec3, .qin, "hsv".data⟩]⟩, .decimal 10 11⟩,
       ⟨⟨"lpfx_hsv2rgb".data, .vec4, [⟨.vec4, .qin, "hsv".data⟩]⟩, .decimal 12 13⟩]
      "lpfx_hsv2rgb".data [.vec3] =
      some ⟨⟨"lpfx_hsv2rgb".data, .vec3, [⟨.vec3, .qin, "hsv".data⟩]⟩, .decimal 10 11⟩ ∧
    find_lpfx_fn
      [⟨⟨"lpfx_hsv2rgb".data, .vec3, [⟨.vec3, .qin, "hsv".data⟩]⟩, .decimal 10 11⟩]
      "lpfx_unknown".data [.vec3] = none :=
  ⟨((find_lpfx_fn_exact_unique_match _ _ _).1 _).mpr (by decide),
   (find_lpfx_fn_exact_unique_match _ _ _).2 (by decide)⟩

end LPFX

namespace LP

/-! ### Claim C3: the square-root pipeline equals the stated algorithm -/

theorem ishr_eq (z : ℤ) (k : ℕ) : ishr z k = z / 2 ^ k :=
  Int.fdiv_eq_ediv z (by positivity)

theorem toI64_of_lt {n : ℕ} (h : n < 2 ^ 63) : toI64 n = (n : ℤ) := if_pos h

theorem divide_by_reciprocal_pos (xs g : ℤ) (hxs1 : 2 ^ 16 ≤ xs) (hxs2 : xs < 2 ^ 47)
    (hg1 : 1 ≤ g) (hg2 : g ≤ 2 ^ 48) :
    divide_by_reciprocal xs g = some (sqrtDivStep xs g) ∧
    2 ≤ sqrtDivStep xs g ∧ sqrtDivStep xs g ≤ 2 ^ 48 - 1 := by
  have habs : absWrap64 g = g := by
    unfold absWrap64
    rw [abs_of_nonneg (by omega)]
    exact wrap64_eq_self (by omega) (by omega)
  have hgne : ¬ (g = 0) := by omega
  have hmin2 : min g (2 ^ 31 - 1) ≤ 2 ^ 31 - 1 := min_le_right _ _
  have hwmin : wrap32 (min g (2 ^ 31 - 1)) = min g (2 ^ 31 - 1) :=
    wrap32_eq_self (by omega) (by omega)
  have hnatAbs : (min g (2 ^ 31 - 1)).natAbs = (min g (2 ^ 31 - 1)).toNat := by omega
  have hg0ne : ¬ ((min g (2 ^ 31 - 1)).toNat = 0) := by omega
  have hrec1 : 1 ≤ 0x80000000 / (min g (2 ^ 31 - 1)).toNat := by
    rw [Nat.one_le_div_iff (by omega)]
    omega
  have hrec2 : 0x80000000 / (min g (2 ^ 31 - 1)).toNat ≤ 0x80000000 := Nat.div_le_self _ _
  have hxabs : xs.natAbs = xs.toNat := by omega
  have hxN : 2 ^ 16 ≤ xs.toNat := by omega
  have hm1a : 2 ^ 16 ≤ satMul64 xs.toNat (0x80000000 / (min g (2 ^ 31 - 1)).toNat) := by
    have hp : 2 ^ 16 ≤ xs.toNat * (0x80000000 / (min g (2 ^ 31 - 1)).toNat) := by
      calc (2 ^ 16 : ℕ) = 2 ^ 16 * 1 := by norm_num
      _ ≤ xs.toNat * (0x80000000 / (min g (2 ^ 31 - 1)).toNat) := Nat.mul_le_mul hxN hrec1
    unfold satMul64
    omega
  have hm1b : satMul64 xs.toNat (0x80000000 / (min g (2 ^ 31 - 1)).toNat) ≤ 2 ^ 64 - 1 :=
    min_le_right _ _
  have hm2a : 2 ^ 17 ≤ satMul64 (satMul64 xs.toNat (0x80000000 / (min g (2 ^ 31 - 1)).toNat)) 2 := by
    generalize satMul64 xs.toNat (0x80000000 / (min g (2 ^ 31 - 1)).toNat) = M at hm1a hm1b ⊢
    unfold satMul64
    omega
  have hm2b : satMul64 (satMul64 xs.toNat (0x80000000 / (min g (2 ^ 31 - 1)).toNat)) 2 ≤
      2 ^ 64 - 1 := min_le_right _ _
  have hq1 : 2 ≤ (satMul64 (satMul64 xs.toNat (0x80000000 / (min g (2 ^ 31 - 1)).toNat)) 2) >>> 16 := by
    generalize satMul64 (satMul64 xs.toNat (0x80000000 / (min g (2 ^ 31 - 1)).toNat)) 2 = M
      at hm2a hm2b ⊢
    rw [Nat.shiftRight_eq_div_pow]
    omega
  have hq2 : (satMul64 (satMul64 xs.toNat (0x80000000 / (min g (2 ^ 31 - 1)).toNat)) 2) >>> 16 ≤
      2 ^ 48 - 1 := by
    generalize satMul64 (satMul64 xs.toNat (0x80000000 / (min g (2 ^ 31 - 1)).toNat)) 2 = M
      at hm2a hm2b ⊢
    rw [Nat.shiftRight_eq_div_pow]
    omega
  have hlt : (satMul64 (satMul64 xs.toNat (0x80000000 / (min g (2 ^ 31 - 1)).toNat)) 2) >>> 16 <
      2 ^ 63 := by omega
  have hstep : sqrtDivStep xs g =
      ((satMul64 (satMul64 xs.toNat (0x80000000 / (min g (2 ^ 31 - 1)).toNat)) 2) >>> 16 : ℕ) := rfl
  refine ⟨?_, ?_, ?_⟩
  · simp only [divide_by_reciprocal, habs, if_neg hgne, hwmin, hnatAbs, if_neg hg0ne,
      checkedDiv, Option.map_some', hxabs]
    have hsx : decide (xs < 0) = false := decide_eq_false (by omega)
    have hsg : decide (g < 0) = false := decide_eq_false (by omega)
    rw [hsx, hsg]
    rw [if_neg (by simp : ¬ ((false : Bool) ≠ (false : Bool))), mul_one]
    rw [toI64_of_lt hlt]
    rw [wrap64_eq_self (by omega) (by exact_mod_cast hlt)]
    rw [hstep]
  · rw [hstep]
    omega
  · rw [hstep]
    omega

theorem sqrtIter_pos (xs g : ℤ) (hxs1 : 2 ^ 16 ≤ xs) (hxs2 : xs < 2 ^ 47)
    (hg1 : 1 ≤ g) (hg2 : g ≤ 2 ^ 48) :
    sqrtIter xs g = some (ishr (g + sqrtDivStep xs g) 1) ∧
    1 ≤ ishr (g + sqrtDivStep xs g) 1 ∧ ishr (g + sqrtDivStep xs g) 1 ≤ 2 ^ 48 := by
  obtain ⟨hd, hd1, hd2⟩ := divide_by_reciprocal_pos xs g hxs1 hxs2 hg1 hg2
  have hsum : wrap64 (g + sqrtDivStep xs g) = g + sqrtDivStep xs g :=
    wrap64_eq_self (by omega) (by omega)
  have hnew1 : 1 ≤ ishr (g + sqrtDivStep xs g) 1 := by
    rw [ishr_eq]
    omega
  have hnew2 : ishr (g + sqrtDivStep xs g) 1 ≤ 2 ^ 48 := by
    rw [ishr_eq]
    omega
  refine ⟨?_, hnew1, hnew2⟩
  unfold sqrtIter
  rw [hd]
  simp only [Option.map_some', hsum]
  rw [if_neg (by omega)]

theorem sqrtLoop_pos (xs : ℤ) (hxs1 : 2 ^ 16 ≤ xs) (hxs2 : xs < 2 ^ 47) :
    ∀ (n : ℕ) (g : ℤ), 1 ≤ g → g ≤ 2 ^ 48 →
      sqrtLoop n xs g =
        some ((fun guess => ishr (guess + sqrtDivStep xs guess) 1)^[n] g) := by
  intro n
  induction n with
  | zero =>
    intro g _ _
    simp [sqrtLoop]
  | succ k ih =>
    intro g hg1 hg2
    obtain ⟨hi, hn1, hn2⟩ := sqrtIter_pos xs g hxs1 hxs2 hg1 hg2
    unfold sqrtLoop
    rw [hi]
    simp only [Option.some_bind]
    rw [ih _ hn1 hn2, Function.iterate_succ_apply]

/-- Claim C3: for every positive in-range Q16.16 input, `fixed32_sqrt`
computes exactly the stated algorithm: pre-scale `x_scaled = x << 16` in
64-bit width, take the initial guess `x_scaled >> 9`, run exactly six
Newton–Raphson iterations `guess = (guess + x_scaled/guess) >> 1` whose
division step is the reciprocal trick with the guess truncated to 32 bits
for the reciprocal lookup, and rescale the final guess by a right shift of 8
(narrowed to the 32-bit return width).  In particular the `.max(1)` on the
initial guess and the zero-guess guard inside the loop never fire. -/
theorem sqrt_eq_newton_reciprocal_algorithm (x : ℤ) (hx1 : 0 < x) (hx2 : x < 2 ^ 31) :
    fixed32_sqrt x = some (sqrtAlg x) := by
  have hxs1 : (2 ^ 16 : ℤ) ≤ x * 2 ^ 16 := by omega
  have hxs2 : x * 2 ^ 16 < 2 ^ 47 := by omega
  have hw : wrap64 (x * 2 ^ 16) = x * 2 ^ 16 := wrap64_eq_self (by omega) (by omega)
  have hg01 : 1 ≤ ishr (x * 2 ^ 16) 9 := by
    rw [ishr_eq]
    omega
  have hg02 : ishr (x * 2 ^ 16) 9 ≤ 2 ^ 48 := by
    rw [ishr_eq]
    omega
  simp only [fixed32_sqrt]
  rw [if_neg (by omega : ¬ x ≤ 0), hw, max_eq_left hg01,
    sqrtLoop_pos (x * 2 ^ 16) hxs1 hxs2 6 _ hg01 hg02]
  simp only [Option.map_some']
  rfl

/-- Witness for C3's theorem at `x = 262144` (i.e. `4.0` in Q16.16). -/
theorem sqrt_eq_newton_reciprocal_algorithm_witness :
    fixed32_sqrt 262144 = some (sqrtAlg 262144) :=
  sqrt_eq_newton_reciprocal_algorithm 262144 (by norm_num) (by norm_num)

end LP

namespace LPFX

/-! ### Claim C7: a missing FixedPoint variant fails validation -/

theorem checkGroups_ok_iff (c : List ParsedLpfxFunction → Except LpfxCodegenError Unit)
    (l : List (List Char × List ParsedLpfxFunction)) :
    checkGroups c l = .ok () ↔ ∀ g ∈ l, c g.2 = .ok () := by
  induction l with
  | nil => simp [checkGroups]
  | cons h r ih =>
    unfold checkGroups
    rcases hc : c h.2 with e | u
    · simp [List.forall_mem_cons, hc]
    · cases u
      simp [List.forall_mem_cons, hc, ih]

theorem checkGroups_error_of (c : List ParsedLpfxFunction → Except LpfxCodegenError Unit)
    (l : List (List Char × List ParsedLpfxFunction))
    (gk : List Char × List ParsedLpfxFunction) (e : LpfxCodegenError)
    (hmem : gk ∈ l) (herr : c gk.2 = .error e)
    (hok : ∀ g' ∈ l, g' ≠ gk → c g'.2 = .ok ()) : checkGroups c l = .error e := by
  induction l with
  | nil => cases hmem
  | cons h r ih =>
    unfold checkGroups
    by_cases hhg : h = gk
    · subst hhg
      rw [herr]
    · rw [hok h (List.mem_cons_self h r) hhg]
      have hm : gk ∈ r := by
        rcases List.mem_cons.mp hmem with hh | hh
        · exact absurd hh.symm hhg
        · exact hh
      exact ih hm fun g' hg' hne => hok g' (List.mem_cons_of_mem h hg') hne

theorem checkGroupPairs_ok_iff (g : List ParsedLpfxFunction) :
    checkGroupPairs g = .ok () ↔ completePair g := by
  unfold checkGroupPairs completePair
  by_cases hv : hasVariantTagged g = true <;>
    by_cases hf : hasF32 g = true <;>
      by_cases hq : hasQ32 g = true <;>
        simp [hv, hf, hq]

theorem checkGroupPairs_missing_q32 (g : List ParsedLpfxFunction)
    (hv : hasVariantTagged g = true) (hf : hasF32 g = true) (hq : hasQ32 g = false) :
    checkGroupPairs g = .error (.missingPair (headName g) .q32 (foundVariants g)) := by
  unfold checkGroupPairs
  simp [hv, hf, hq]

theorem checkGroupPairs_missing_f32 (g : List ParsedLpfxFunction)
    (hv : hasVariantTagged g = true) (hf : hasF32 g = false) :
    checkGroupPairs g = .error (.missingPair (headName g) .f32 (foundVariants g)) := by
  unfold checkGroupPairs
  simp [hv, hf]

theorem checkAttrs_ok (fns : List ParsedLpfxFunction)
    (h : ∀ f ∈ fns, f.info.has_lpfx_impl_attr = true) : checkAttrs fns = .ok () := by
  induction fns with
  | nil => rfl
  | cons f r ih =>
    unfold checkAttrs
    rw [if_pos (h f (List.mem_cons_self f r))]
    exact ih fun f' hf' => h f' (List.mem_cons_of_mem f hf')

/-- Claim C7: if a numeric-variant-dependent signature group has a Float
(`F32`) implementation but no FixedPoint (`Q32`) one, `validate_lpfx_functions`
fails with a missing-pair error naming the group's function and identifying
`Q32` (FixedPoint) as the missing variant (stated here for the case where the
other groups are well-formed, which fixes which error surfaces first); and
validation never accepts a registry containing any incomplete
variant-dependent group. -/
theorem missing_fixedpoint_variant_fails_validation :
    (∀ (fns : List ParsedLpfxFunction) (k : List Char) (g : List ParsedLpfxFunction),
       (∀ f ∈ fns, f.info.has_lpfx_impl_attr = true) →
       (k, g) ∈ groupBySig fns →
       hasVariantTagged g = true → hasF32 g = true → hasQ32 g = false →
       (∀ kg ∈ groupBySig fns, kg ≠ (k, g) → completePair kg.2) →
       validate_lpfx_functions fns =
         .error (.missingPair (headName g) .q32 (foundVariants g))) ∧
    (∀ fns : List ParsedLpfxFunction,
       (∃ kg ∈ groupBySig fns, ¬ completePair kg.2) →
       validate_lpfx_functions fns ≠ .ok ()) := by
  constructor
  · intro fns k g hattrs hmem hv hf hq huniq
    have hA : checkAttrs fns = .ok () := checkAttrs_ok fns hattrs
    have hdec : validate_decimal_pairs fns =
        .error (.missingPair (headName g) .q32 (foundVariants g)) :=
      checkGroups_error_of checkGroupPairs (groupBySig fns) (k, g) _ hmem
        (checkGroupPairs_missing_q32 g hv hf hq)
        (fun g' hg' hne => (checkGroupPairs_ok_iff g'.2).mpr (huniq g' hg' hne))
    unfold validate_lpfx_functions
    rw [hA, hdec]
  · intro fns hex hok
    rcases hex with ⟨kg, hmem, hinc⟩
    unfold validate_lpfx_functions at hok
    rcases hA : checkAttrs fns with e | u
    · rw [hA] at hok
      cases hok
    · cases u
      rw [hA] at hok
      rcases hd : validate_decimal_pairs fns with e | u
      · rw [hd] at hok
        cases hok
      · cases u
        have := (checkGroups_ok_iff checkGroupPairs (groupBySig fns)).mp hd kg hmem
        exact hinc ((checkGroupPairs_ok_iff kg.2).mp this)

/-- Witness for C7's theorem: a one-function registry holding only the Float
variant of `lpfx_sin`; validation fails with a missing-pair error naming
`lpfx_sin` and the `Q32` (FixedPoint) variant. -/
theorem missing_fixedpoint_variant_fails_validation_witness :
    validate_lpfx_functions
      [⟨⟨"lpfx_sin_f32".data, "src/sin_f32.rs".data, true⟩, ⟨some .f32⟩,
        ⟨"lpfx_sin".data, .float, [⟨.float, .qin, "x".data⟩]⟩⟩] =
      .error (.missingPair "lpfx_sin".data .q32 [.f32]) :=
  missing_fixedpoint_variant_fails_validation.1
    [⟨⟨"lpfx_sin_f32".data, "src/sin_f32.rs".data, true⟩, ⟨some .f32⟩,
      ⟨"lpfx_sin".data, .float, [⟨.float, .qin, "x".data⟩]⟩⟩]
    (signature_key ⟨"lpfx_sin".data, .float, [⟨.float, .qin, "x".data⟩]⟩)
    [⟨⟨"lpfx_sin_f32".data, "src/sin_f32.rs".data, true⟩, ⟨some .f32⟩,
      ⟨"lpfx_sin".data, .float, [⟨.float, .qin, "x".data⟩]⟩⟩]
    (by decide) (by decide) (by decide) (by decide) (by decide) (by decide)

end LPFX

namespace LPFX

/-! ### Claim C6: a structurally mismatched Float/FixedPoint pair

The two variants of a structurally mismatched pair have different signature
keys (the key injectivity proved below), so they are grouped apart and
`validate_decimal_pairs` rejects the registry with a *missing-pair* error
before the signature-consistency check ever runs; the signature-mismatch
error is not what surfaces.  Because the Rust `HashMap` iteration order is
unspecified, which of the two incomplete single-variant groups is visited
first — and hence which variant the missing-pair payload names — is not
determined by the program; the theorem therefore quantifies over every
iteration order of both passes and concludes the order-independent
disjunction. -/

theorem ty_chars_head (t : GlslType) :
    t.debugChars ≠ [] ∧ t.debugChars.head? ≠ some 'O' := by
  revert t
  decide

theorem ty_prefix_eq (t1 t2 : GlslType) (h : t1.debugChars <+: t2.debugChars) :
    t1 = t2 := by
  revert t1 t2
  decide

theorem pair_prefix_cases (t1 : GlslType) (q1 : Qualifier) (t2 : GlslType) (q2 : Qualifier)
    (h : (t1.debugChars ++ q1.debugChars) <+: (t2.debugChars ++ q2.debugChars)) :
    (t1 = t2 ∧ q1 = q2) ∨
      t2.debugChars ++ q2.debugChars = (t1.debugChars ++ q1.debugChars) ++ "Out".data := by
  revert t1 q1 t2 q2
  decide

theorem pairsFlat_ne_O (l : List Parameter) (s : List Char) : pairsFlat l ≠ 'O' :: s := by
  cases l with
  | nil => simp [pairsFlat]
  | cons p r =>
    obtain ⟨hne, hhd⟩ := ty_chars_head p.ty
    rcases hc : p.ty.debugChars with _ | ⟨c, cs⟩
    · exact absurd hc hne
    · have hcO : c ≠ 'O' := by
        rw [hc] at hhd
        simpa using hhd
      simp only [pairsFlat, List.map_cons, List.flatten_cons, hc, List.cons_append,
        List.append_assoc]
      intro heq
      exact hcO (List.head_eq_of_cons_eq heq)

theorem pairsFlat_inj :
    ∀ l1 l2 : List Parameter, pairsFlat l1 = pairsFlat l2 →
      (l1.map fun p => (p.ty, p.qualifier)) = l2.map fun p => (p.ty, p.qualifier) := by
  intro l1
  induction l1 with
  | nil =>
    intro l2 h
    cases l2 with
    | nil => rfl
    | cons p r =>
      exfalso
      obtain ⟨hne, _⟩ := ty_chars_head p.ty
      rcases hc : p.ty.debugChars with _ | ⟨c, cs⟩
      · exact hne hc
      · rw [pairsFlat] at h
        simp only [pairsFlat, List.map_cons, List.flatten_cons, hc, List.cons_append] at h
        cases h
  | cons p r ih =>
    intro l2 h
    cases l2 with
    | nil =>
      exfalso
      obtain ⟨hne, _⟩ := ty_chars_head p.ty
      rcases hc : p.ty.debugChars with _ | ⟨c, cs⟩
      · exact hne hc
      · simp only [pairsFlat, List.map_cons, List.flatten_cons, hc, List.cons_append] at h
        cases h
    | cons p' r' =>
      have hsplit : (p.ty.debugChars ++ p.qualifier.debugChars) ++ pairsFlat r =
          (p'.ty.debugChars ++ p'.qualifier.debugChars) ++ pairsFlat r' := by
        simpa [pairsFlat, List.append_assoc] using h
      rcases List.append_eq_append_iff.mp hsplit with ⟨a', ha1, ha2⟩ | ⟨c', hc1, hc2⟩
      · rcases pair_prefix_cases p.ty p.qualifier p'.ty p'.qualifier ⟨a', ha1.symm⟩ with
          ⟨hty, hq⟩ | hout
        · have hAeq : p.ty.debugChars ++ p.qualifier.debugChars =
              p'.ty.debugChars ++ p'.qualifier.debugChars := by rw [hty, hq]
          have ha0 : a' = [] := by
            have := ha1
            rw [← hAeq] at this
            have hlen := congrArg List.length this
            simp at hlen
            exact hlen
          subst ha0
          simp only [List.nil_append] at ha2
          simp only [List.map_cons, hty, hq, ih r' ha2]
        · have ha' : a' = "Out".data := by
            apply List.append_cancel_left
            rw [← ha1, hout]
          rw [ha'] at ha2
          exact absurd ha2 (by simpa using pairsFlat_ne_O r _)
      · rcases pair_prefix_cases p'.ty p'.qualifier p.ty p.qualifier ⟨c', hc1.symm⟩ with
          ⟨hty, hq⟩ | hout
        · have hAeq : p'.ty.debugChars ++ p'.qualifier.debugChars =
              p.ty.debugChars ++ p.qualifier.debugChars := by rw [hty, hq]
          have hc0 : c' = [] := by
            have := hc1
            rw [← hAeq] at this
            have hlen := congrArg List.length this
            simp at hlen
            exact hlen
          subst hc0
          simp only [List.nil_append] at hc2
          simp only [List.map_cons, hty, hq, ih r' hc2.symm]
        · have hc' : c' = "Out".data := by
            apply List.append_cancel_left
            rw [← hc1, hout]
          rw [hc'] at hc2
          exact absurd hc2 (by simpa using pairsFlat_ne_O r' _)

theorem zip_all_of_map_eq :
    ∀ l1 l2 : List Parameter,
      (l1.map fun p => (p.ty, p.qualifier)) = (l2.map fun p => (p.ty, p.qualifier)) →
      ((l1.zip l2).all fun pp =>
        decide (pp.1.ty = pp.2.ty) && decide (pp.1.qualifier = pp.2.qualifier)) = true := by
  intro l1
  induction l1 with
  | nil =>
    intro l2 h
    cases l2 with
    | nil => rfl
    | cons p r => simp at h
  | cons p r ih =>
    intro l2 h
    cases l2 with
    | nil => simp at h
    | cons p' r' =>
      simp only [List.map_cons, List.cons.injEq, Prod.mk.injEq] at h
      obtain ⟨⟨hty, hq⟩, ht⟩ := h
      simp [List.zip_cons_cons, hty, hq, ih r' ht]

theorem signature_key_inj (s1 s2 : FunctionSignature) (hn : s1.name = s2.name)
    (hk : signature_key s1 = signature_key s2) : signatures_match s1 s2 = true := by
  unfold signature_key at hk
  rw [hn] at hk
  have h2 := List.append_cancel_left hk
  have h3 : s1.return_type.debugChars ++ pairsFlat s1.parameters =
      s2.return_type.debugChars ++ pairsFlat s2.parameters := by
    injection h2
  have hret : s1.return_type = s2.return_type := by
    rcases List.append_eq_append_iff.mp h3 with ⟨a', ha1, _⟩ | ⟨c', hc1, _⟩
    · exact ty_prefix_eq _ _ ⟨a', ha1.symm⟩
    · exact (ty_prefix_eq _ _ ⟨c', hc1.symm⟩).symm
  have hflat : pairsFlat s1.parameters = pairsFlat s2.parameters := by
    apply List.append_cancel_left
    rw [← h3, hret]
  have hmap := pairsFlat_inj _ _ hflat
  have hlen : s1.parameters.length = s2.parameters.length := by
    have := congrArg List.length hmap
    simpa using this
  unfold signatures_match
  simp [hret, hlen, zip_all_of_map_eq _ _ hmap]

end LPFX

namespace LPFX

/-- Counterexample for claim C6 as stated: a registry holding a Float-tagged
and a FixedPoint-tagged implementation of `lpfx_foo` whose parameter lists
differ structurally (`float` vs `vec3`).  Registry validation fails — but
with a missing-pair error, not with a signature-mismatch error. -/
theorem mismatched_pair_not_signature_mismatch_counterexample :
    validate_lpfx_functions
      [⟨⟨"lpfx_foo_f32".data, "src/foo_f32.rs".data, true⟩, ⟨some .f32⟩,
        ⟨"lpfx_foo".data, .float, [⟨.float, .qin, "x".data⟩]⟩⟩,
       ⟨⟨"lpfx_foo_q32".data, "src/foo_q32.rs".data, true⟩, ⟨some .q32⟩,
        ⟨"lpfx_foo".data, .float, [⟨.vec3, .qin, "x".data⟩]⟩⟩] =
      .error (.missingPair "lpfx_foo".data .q32 [.f32]) ∧
    failsWithSignatureMismatch
      (validate_lpfx_functions
        [⟨⟨"lpfx_foo_f32".data, "src/foo_f32.rs".data, true⟩, ⟨some .f32⟩,
          ⟨"lpfx_foo".data, .float, [⟨.float, .qin, "x".data⟩]⟩⟩,
         ⟨⟨"lpfx_foo_q32".data, "src/foo_q32.rs".data, true⟩, ⟨some .q32⟩,
          ⟨"lpfx_foo".data, .float, [⟨.vec3, .qin, "x".data⟩]⟩⟩]) = false := by
  constructor
  · decide
  · decide

theorem perm_pair_eq {α : Type} (x y : α) (l : List α) (h : l.Perm [x, y]) :
    l = [x, y] ∨ l = [y, x] := by
  have hlen : l.length = 2 := h.length_eq
  rcases l with _ | ⟨u, _ | ⟨v, _ | ⟨w, t⟩⟩⟩
  · simp at hlen
  · simp at hlen
  · have hu : u ∈ [x, y] := h.mem_iff.mp (List.mem_cons_self u [v])
    rcases List.mem_cons.mp hu with rfl | hu'
    · left
      have h2 : [v].Perm [y] := h.cons_inv
      have hv : v = y := by simpa using h2.mem_iff.mp (List.mem_cons_self v [])
      rw [hv]
    · have huy : u = y := List.mem_singleton.mp hu'
      subst huy
      right
      have h2 : ([u, v]).Perm [u, x] := h.trans (List.Perm.swap u x [])
      have h3 : [v].Perm [x] := h2.cons_inv
      have hv : v = x := by simpa using h3.mem_iff.mp (List.mem_cons_self v [])
      rw [hv]
  · simp only [List.length_cons] at hlen
    omega

/-- Claim C6 as amended: a registry consisting of a Float-tagged and a
FixedPoint-tagged implementation with the same GLSL name whose parameter
(type, qualifier) lists or return type differ structurally fails validation
with a *missing-pair* error naming the function — under every iteration
order of the two per-pass group maps (any permutation `gs1` of the
signature-key groups for the decimal-pair pass and any group list `gs2` for
the consistency pass), the surfaced error is the missing-pair error for the
`Q32` (FixedPoint) variant or the one for the `F32` (Float) variant,
according to which incomplete group the order visits first — and never a
signature-mismatch error: the two variants have different signature keys and
are grouped apart, so each single-variant group fails
`validate_decimal_pairs` before the signature-consistency check (which only
ever compares members of one group, whose signatures match by key
injectivity) can run. -/
theorem mismatched_pair_fails_with_missing_pair (f g : ParsedLpfxFunction)
    (haf : f.info.has_lpfx_impl_attr = true) (hag : g.info.has_lpfx_impl_attr = true)
    (hvf : f.attr.variant = some .f32) (hvg : g.attr.variant = some .q32)
    (hn : f.glsl_sig.name = g.glsl_sig.name)
    (hmis : signatures_match f.glsl_sig g.glsl_sig = false)
    (gs1 gs2 : List (List Char × List ParsedLpfxFunction))
    (hp1 : gs1.Perm (groupBySig [f, g])) :
    validate_lpfx_functions_ord [f, g] gs1 gs2 =
        .error (.missingPair f.glsl_sig.name .q32 [.f32]) ∨
    validate_lpfx_functions_ord [f, g] gs1 gs2 =
        .error (.missingPair f.glsl_sig.name .f32 [.q32]) := by
  have hkey : ¬ (signature_key f.glsl_sig = signature_key g.glsl_sig) := by
    intro hk
    rw [signature_key_inj _ _ hn hk] at hmis
    cases hmis
  have hkey' : ¬ (signature_key g.glsl_sig = signature_key f.glsl_sig) :=
    fun hk => hkey hk.symm
  have hfk : firstKeys [f, g] =
      [signature_key f.glsl_sig, signature_key g.glsl_sig] := by
    unfold firstKeys
    simp only [List.foldl_cons, List.foldl_nil]
    rw [if_neg (List.not_mem_nil _)]
    simp only [List.nil_append]
    rw [if_neg (fun h => hkey' (List.mem_singleton.mp h))]
    rfl
  have hgrp : groupBySig [f, g] =
      [(signature_key f.glsl_sig, [f]), (signature_key g.glsl_sig, [g])] := by
    unfold groupBySig
    rw [hfk]
    simp [List.filter_cons, hkey, hkey']
  have hattrs : checkAttrs [f, g] = .ok () := by
    apply checkAttrs_ok
    intro f' hf'
    rcases List.mem_cons.mp hf' with rfl | hf'
    · exact haf
    · rcases List.mem_cons.mp hf' with rfl | hf'
      · exact hag
      · cases hf'
  have hvF : hasVariantTagged [f] = true := by simp [hasVariantTagged, hvf]
  have hf32 : hasF32 [f] = true := by simp [hasF32, hvf]
  have hq32 : hasQ32 [f] = false := by simp [hasQ32, hvf]
  have herrF := checkGroupPairs_missing_q32 [f] hvF hf32 hq32
  have hfvF : foundVariants [f] = [.f32] := by simp [foundVariants, hvf]
  have hvG : hasVariantTagged [g] = true := by simp [hasVariantTagged, hvg]
  have hg32 : hasF32 [g] = false := by simp [hasF32, hvg]
  have herrG := checkGroupPairs_missing_f32 [g] hvG hg32
  have hfvG : foundVariants [g] = [.q32] := by simp [foundVariants, hvg]
  rw [hgrp] at hp1
  rcases perm_pair_eq _ _ _ hp1 with h1 | h1
  · left
    subst h1
    unfold validate_lpfx_functions_ord
    rw [hattrs]
    unfold checkGroups
    rw [herrF]
    rw [show headName [f] = f.glsl_sig.name from rfl, hfvF]
  · right
    subst h1
    unfold validate_lpfx_functions_ord
    rw [hattrs]
    unfold checkGroups
    rw [herrG]
    rw [show headName [g] = g.glsl_sig.name from rfl, hfvG, hn]

/-- Witness for the amended C6 theorem at a concrete mismatched pair, with
both passes running in the canonical group order. -/
theorem mismatched_pair_fails_with_missing_pair_witness :
    validate_lpfx_functions_ord
      [⟨⟨"lpfx_bar_f32".data, "src/bar_f32.rs".data, true⟩, ⟨some .f32⟩,
        ⟨"lpfx_bar".data, .vec3, [⟨.vec3, .qin, "v".data⟩]⟩⟩,
       ⟨⟨"lpfx_bar_q32".data, "src/bar_q32.rs".data, true⟩, ⟨some .q32⟩,
        ⟨"lpfx_bar".data, .vec4, [⟨.vec4, .qinout, "v".data⟩]⟩⟩]
      (groupBySig
        [⟨⟨"lpfx_bar_f32".data, "src/bar_f32.rs".data, true⟩, ⟨some .f32⟩,
          ⟨"lpfx_bar".data, .vec3, [⟨.vec3, .qin, "v".data⟩]⟩⟩,
         ⟨⟨"lpfx_bar_q32".data, "src/bar_q32.rs".data, true⟩, ⟨some .q32⟩,
          ⟨"lpfx_bar".data, .vec4, [⟨.vec4, .qinout, "v".data⟩]⟩⟩])
      (groupBySig
        [⟨⟨"lpfx_bar_f32".data, "src/bar_f32.rs".data, true⟩, ⟨some .f32⟩,
          ⟨"lpfx_bar".data, .vec3, [⟨.vec3, .qin, "v".data⟩]⟩⟩,
         ⟨⟨"lpfx_bar_q32".data, "src/bar_q32.rs".data, true⟩, ⟨some .q32⟩,
          ⟨"lpfx_bar".data, .vec4, [⟨.vec4, .qinout, "v".data⟩]⟩⟩]) =
      .error (.missingPair "lpfx_bar".data .q32 [.f32]) ∨
    validate_lpfx_functions_ord
      [⟨⟨"lpfx_bar_f32".data, "src/bar_f32.rs".data, true⟩, ⟨some .f32⟩,
        ⟨"lpfx_bar".data, .vec3, [⟨.vec3, .qin, "v".data⟩]⟩⟩,
       ⟨⟨"lpfx_bar_q32".data, "src/bar_q32.rs".data, true⟩, ⟨some .q32⟩,
        ⟨"lpfx_bar".data, .vec4, [⟨.vec4, .qinout, "v".data⟩]⟩⟩]
      (groupBySig
        [⟨⟨"lpfx_bar_f32".data, "src/bar_f32.rs".data, true⟩, ⟨some .f32⟩,
          ⟨"lpfx_bar".data, .vec3, [⟨.vec3, .qin, "v".data⟩]⟩⟩,
         ⟨⟨"lpfx_bar_q32".data, "src/bar_q32.rs".data, true⟩, ⟨some .q32⟩,
          ⟨"lpfx_bar".data, .vec4, [⟨.vec4, .qinout, "v".data⟩]⟩⟩])
      (groupBySig
        [⟨⟨"lpfx_bar_f32".data, "src/bar_f32.rs".data, true⟩, ⟨some .f32⟩,
          ⟨"lpfx_bar".data, .vec3, [⟨.vec3, .qin, "v".data⟩]⟩⟩,
         ⟨⟨"lpfx_bar_q32".data, "src/bar_q32.rs".data, true⟩, ⟨some .q32⟩,
          ⟨"lpfx_bar".data, .vec4, [⟨.vec4, .qinout, "v".data⟩]⟩⟩]) =
      .error (.missingPair "lpfx_bar".data .f32 [.q32]) :=
  mismatched_pair_fails_with_missing_pair _ _ (by decide) (by decide) (by decide)
    (by decide) (by decide) (by decide) _ _ (List.Perm.refl _)

end LPFX

namespace LP

/-! ### Claim C1: rounding infrastructure for the binary32 model -/

theorem rne_intCast (n : ℤ) : rne ((n : ℤ) : ℚ) = n := by
  unfold rne
  rw [Int.floor_intCast]
  rw [if_pos (by norm_num)]

theorem roundF32_fix (m e : ℤ) (hm : |m| < 2 ^ 24) (he : -149 ≤ e) :
    roundF32 ((m : ℚ) * 2 ^ e) = (m : ℚ) * 2 ^ e := by
  by_cases hq : ((m : ℚ) * 2 ^ e) = 0
  · rw [hq]
    unfold roundF32
    rw [if_pos rfl]
  · have h2ne : (2 : ℚ) ≠ 0 := by norm_num
    have hzp : (0 : ℚ) < 2 ^ e := zpow_pos (by norm_num) e
    simp only [roundF32, if_neg hq]
    set A : ℚ := |(m : ℚ) * 2 ^ e| with hA
    have hApos : 0 < A := abs_pos.mpr hq
    have hmabs : |(m : ℚ)| < 2 ^ (24 : ℤ) := by
      have hcast : ((|m| : ℤ) : ℚ) < ((2 ^ 24 : ℤ) : ℚ) := by exact_mod_cast hm
      rw [Int.cast_abs] at hcast
      calc |(m : ℚ)| < ((2 ^ 24 : ℤ) : ℚ) := hcast
      _ = 2 ^ (24 : ℤ) := by norm_num
    have hlt : A < (2 : ℚ) ^ (e + 24) := by
      rw [hA, abs_mul, abs_of_pos hzp]
      calc |(m : ℚ)| * 2 ^ e < 2 ^ (24 : ℤ) * 2 ^ e := mul_lt_mul_of_pos_right hmabs hzp
      _ = (2 : ℚ) ^ (e + 24) := by
            rw [← zpow_add₀ h2ne]
            congr 1
            omega
    have hlog : Int.log 2 A ≤ e + 23 := by
      have hl := (@Int.lt_zpow_iff_log_lt ℚ _ _ 2 (by norm_num) (e + 24) A hApos).mp hlt
      omega
    set E : ℤ := max (Int.log 2 A) (-126) with hE
    have hEle : E ≤ e + 23 := max_le hlog (by omega)
    have hk : (0 : ℤ) ≤ e + 23 - E := by omega
    have hpow : (2 : ℚ) ^ (e : ℤ) * 2 ^ (23 - E) = ((2 ^ (e + 23 - E).toNat : ℤ) : ℚ) := by
      push_cast
      rw [← zpow_natCast (2 : ℚ) (e + 23 - E).toNat, Int.toNat_of_nonneg hk]
      rw [← zpow_add₀ h2ne]
      congr 1
      omega
    have hq23 : (m : ℚ) * 2 ^ e * 2 ^ (23 - E) = ((m * 2 ^ (e + 23 - E).toNat : ℤ) : ℚ) := by
      calc (m : ℚ) * 2 ^ e * 2 ^ (23 - E) = (m : ℚ) * ((2 : ℚ) ^ (e : ℤ) * 2 ^ (23 - E)) := by
            ring
      _ = (m : ℚ) * ((2 ^ (e + 23 - E).toNat : ℤ) : ℚ) := by rw [hpow]
      _ = ((m * 2 ^ (e + 23 - E).toNat : ℤ) : ℚ) := by push_cast; ring
    rw [hq23, rne_intCast]
    have hback : ((m * 2 ^ (e + 23 - E).toNat : ℤ) : ℚ) = (m : ℚ) * 2 ^ ((e + 23 - E) : ℤ) := by
      push_cast
      rw [← zpow_natCast (2 : ℚ) (e + 23 - E).toNat, Int.toNat_of_nonneg hk]
    rw [hback, mul_assoc, ← zpow_add₀ h2ne]
    congr 2
    omega

theorem roundF32_eq_self_of (q : ℚ) (m e : ℤ) (hq : q = (m : ℚ) * 2 ^ e)
    (hm : |m| < 2 ^ 24) (he : -149 ≤ e) : roundF32 q = q := by
  rw [hq]
  exact roundF32_fix m e hm he

end LP

namespace LP

theorem log2_2147483647 : Int.log 2 (2147483647 : ℚ) = 30 := by
  apply le_antisymm
  · have hside : (2147483647 : ℚ) < 2 ^ ((31 : ℕ) : ℤ) := by
      rw [zpow_natCast]
      norm_num
    have hl := (@Int.lt_zpow_iff_log_lt ℚ _ _ 2 (by norm_num) 31 (2147483647 : ℚ)
      (by norm_num)).mp hside
    omega
  · have hside : (2 : ℚ) ^ ((30 : ℕ) : ℤ) ≤ 2147483647 := by
      rw [zpow_natCast]
      norm_num
    exact (@Int.zpow_le_iff_le_log ℚ _ _ 2 (by norm_num) 30 (2147483647 : ℚ)
      (by norm_num)).mp hside

theorem roundF32_2147483647 : roundF32 (2147483647 : ℚ) = 2147483648 := by
  have hne : (2147483647 : ℚ) ≠ 0 := by norm_num
  simp only [roundF32, if_neg hne]
  rw [abs_of_pos (by norm_num), log2_2147483647, max_eq_left (by norm_num)]
  have h1 : (2147483647 : ℚ) * 2 ^ ((23 : ℤ) - 30) = 2147483647 / 128 := by
    rw [show ((23 : ℤ) - 30) = -((7 : ℕ) : ℤ) by norm_num, zpow_neg, zpow_natCast]
    norm_num
  rw [h1]
  have h2 : rne ((2147483647 : ℚ) / 128) = 16777216 := by
    unfold rne
    have hf : ⌊(2147483647 : ℚ) / 128⌋ = 16777215 := by
      rw [Int.floor_eq_iff]
      constructor
      · norm_num
      · norm_num
    rw [hf]
    rw [if_neg (by push_cast; norm_num), if_pos (by push_cast; norm_num)]
    norm_num
  rw [h2]
  rw [show ((30 : ℤ) - 23) = ((7 : ℕ) : ℤ) by norm_num, zpow_natCast]
  norm_num

theorem u32ToF32_65536 : u32ToF32 65536 = 65536 := by
  unfold u32ToF32
  rw [show ((65536 : ℕ) : ℚ) = ((1 : ℤ) : ℚ) * 2 ^ ((16 : ℤ)) by norm_num]
  rw [roundF32_fix 1 16 (by norm_num) (by norm_num)]
  norm_num

theorem MAX_FLOAT_eq : MAX_FLOAT = 32768 := by
  unfold MAX_FLOAT f32div i32ToF32 MAX_FIXED
  rw [u32ToF32_65536]
  rw [show ((0x7FFFFFFF : ℤ) : ℚ) = (2147483647 : ℚ) by norm_num]
  rw [roundF32_2147483647]
  rw [show (2147483648 : ℚ) / 65536 = ((1 : ℤ) : ℚ) * 2 ^ ((15 : ℤ)) by norm_num]
  rw [roundF32_fix 1 15 (by norm_num) (by norm_num)]
  norm_num

theorem MIN_FLOAT_eq : MIN_FLOAT = -32768 := by
  unfold MIN_FLOAT f32div i32ToF32 MIN_FIXED
  rw [u32ToF32_65536]
  rw [show ((-0x80000000 : ℤ) : ℚ) = ((-1 : ℤ) : ℚ) * 2 ^ ((31 : ℤ)) by norm_num]
  rw [roundF32_fix (-1) 31 (by norm_num) (by norm_num)]
  rw [show ((-1 : ℤ) : ℚ) * 2 ^ ((31 : ℤ)) / 65536 = ((-1 : ℤ) : ℚ) * 2 ^ ((15 : ℤ)) by
    push_cast
    rw [show ((31 : ℤ)) = ((31 : ℕ) : ℤ) from rfl, show ((15 : ℤ)) = ((15 : ℕ) : ℤ) from rfl,
      zpow_natCast, zpow_natCast]
    norm_num]
  rw [roundF32_fix (-1) 15 (by norm_num) (by norm_num)]
  push_cast
  rw [show ((15 : ℤ)) = ((15 : ℕ) : ℤ) from rfl, zpow_natCast]
  norm_num

end LP

namespace LP

theorem halfAway_le (x : ℚ) : (halfAway x : ℚ) ≤ x + 1 / 2 := by
  unfold halfAway
  split
  · push_cast
    exact Int.floor_le _
  · push_cast
    have h := Int.lt_floor_add_one (-x + 1 / 2)
    linarith

theorem le_halfAway (x : ℚ) : x - 1 / 2 ≤ (halfAway x : ℚ) := by
  unfold halfAway
  split
  · push_cast
    have h := Int.lt_floor_add_one (x + 1 / 2)
    linarith
  · push_cast
    have h := Int.floor_le (-x + 1 / 2)
    linarith

theorem halfAway_dist (x : ℚ) : |x - (halfAway x : ℚ)| ≤ 1 / 2 := by
  have h1 := halfAway_le x
  have h2 := le_halfAway x
  rw [abs_le]
  constructor <;> linarith

theorem halfAway_intCast (n : ℤ) : halfAway ((n : ℤ) : ℚ) = n := by
  unfold halfAway
  split
  · have : ⌊(n : ℚ) + 1 / 2⌋ = n := by
      rw [Int.floor_eq_iff]
      constructor
      · push_cast
        linarith
      · push_cast
        linarith
    rw [this]
  · have : ⌊-(n : ℚ) + 1 / 2⌋ = -n := by
      rw [Int.floor_eq_iff]
      constructor
      · push_cast
        linarith
      · push_cast
        linarith
    rw [this]
    omega

theorem truncQ_intCast (n : ℤ) : truncQ ((n : ℤ) : ℚ) = n := by
  unfold truncQ
  split
  · rw [Int.floor_intCast]
  · rw [show -((n : ℤ) : ℚ) = ((-n : ℤ) : ℚ) by push_cast; ring, Int.floor_intCast]
    omega

theorem f32_as_i32_intCast (n : ℤ) (h1 : -(2 ^ 31) ≤ n) (h2 : n ≤ 2 ^ 31 - 1) :
    f32_as_i32 ((n : ℤ) : ℚ) = n := by
  unfold f32_as_i32
  rw [truncQ_intCast]
  omega

/-- The only finite binary32 value strictly between `MAX_FIXED/65536` and
`32768` inclusive is `32768` itself. -/
theorem isF32_gap (q : ℚ) (hq : IsF32 q) (hgt : (2147483647 : ℚ) / 65536 < q)
    (hle : q ≤ 32768) : q = 32768 := by
  obtain ⟨m, e, hm, he, hqe, hbound⟩ := hq
  by_contra hne
  have hlt : q < 32768 := lt_of_le_of_ne hle hne
  have hpos : 0 < q := lt_trans (by norm_num) hgt
  have hzp : (0 : ℚ) < 2 ^ e := zpow_pos (by norm_num) e
  have hmposQ : 0 < (m : ℚ) := by
    by_contra hm0
    push_neg at hm0
    nlinarith [hqe]
  have hm24 : (m : ℚ) < 2 ^ 24 := by
    have : m < 2 ^ 24 := lt_of_abs_lt hm
    exact_mod_cast this
  rcases le_or_lt e (-10) with he10 | he10
  · have h2e : (2 : ℚ) ^ e ≤ 2 ^ (-10 : ℤ) := zpow_le_zpow_right₀ (by norm_num) he10
    have h210 : (2 : ℚ) ^ (-10 : ℤ) = 1 / 1024 := by
      rw [show ((-10 : ℤ)) = -((10 : ℕ) : ℤ) by norm_num, zpow_neg, zpow_natCast]
      norm_num
    have hstep : (m : ℚ) * 2 ^ e ≤ (m : ℚ) * (1 / 1024) := by
      rw [← h210]
      exact mul_le_mul_of_nonneg_left h2e (le_of_lt hmposQ)
    rw [← hqe] at hstep
    linarith
  · rcases le_or_lt e 15 with he15 | he15
    · have hK : (0 : ℤ) ≤ 15 - e := by omega
      have h215 : (2 : ℚ) ^ (15 : ℤ) = 32768 := by
        rw [show ((15 : ℤ)) = ((15 : ℕ) : ℤ) from rfl, zpow_natCast]
        norm_num
      have hmlt : (m : ℚ) < 2 ^ ((15 : ℤ) - e) := by
        rw [zpow_sub₀ (by norm_num : (2 : ℚ) ≠ 0), h215]
        rw [lt_div_iff hzp]
        rw [hqe] at hlt
        linarith
      have hmltZ : m < 2 ^ (15 - e).toNat := by
        have hc : (m : ℚ) < ((2 ^ (15 - e).toNat : ℤ) : ℚ) := by
          rw [show ((2 ^ (15 - e).toNat : ℤ) : ℚ) = (2 : ℚ) ^ ((15 : ℤ) - e) by
            push_cast
            rw [← zpow_natCast (2 : ℚ) (15 - e).toNat, Int.toNat_of_nonneg hK]]
          exact hmlt
        exact_mod_cast hc
      have hmleZ : m ≤ 2 ^ (15 - e).toNat - 1 := by omega
      have hqle : q ≤ ((2 ^ (15 - e).toNat - 1 : ℤ) : ℚ) * 2 ^ e := by
        rw [hqe]
        apply mul_le_mul_of_nonneg_right _ (le_of_lt hzp)
        exact_mod_cast hmleZ
      have hexp : ((2 ^ (15 - e).toNat - 1 : ℤ) : ℚ) * 2 ^ e = 32768 - 2 ^ e := by
        push_cast
        rw [← zpow_natCast (2 : ℚ) (15 - e).toNat, Int.toNat_of_nonneg hK]
        rw [sub_mul, ← zpow_add₀ (by norm_num : (2 : ℚ) ≠ 0)]
        rw [show (15 : ℤ) - e + e = 15 by ring, h215]
        ring
      have h2e9 : (2 : ℚ) ^ (-9 : ℤ) ≤ 2 ^ e := zpow_le_zpow_right₀ (by norm_num) (by omega)
      have h29 : (2 : ℚ) ^ (-9 : ℤ) = 1 / 512 := by
        rw [show ((-9 : ℤ)) = -((9 : ℕ) : ℤ) by norm_num, zpow_neg, zpow_natCast]
        norm_num
      rw [hexp] at hqle
      rw [h29] at h2e9
      linarith
    · have h2e16 : (2 : ℚ) ^ (16 : ℤ) ≤ 2 ^ e := zpow_le_zpow_right₀ (by norm_num) (by omega)
      have h216 : (2 : ℚ) ^ (16 : ℤ) = 65536 := by
        rw [show ((16 : ℤ)) = ((16 : ℕ) : ℤ) from rfl, zpow_natCast]
        norm_num
      have hm1 : (1 : ℚ) ≤ (m : ℚ) := by
        have : 1 ≤ m := by
          by_contra hc
          push_neg at hc
          have : (m : ℚ) ≤ 0 := by exact_mod_cast (by omega : m ≤ 0)
          linarith
        exact_mod_cast this
      have : (2 : ℚ) ^ e ≤ q := by
        rw [hqe]
        nlinarith
      linarith

end LP

namespace LP

theorem two_zpow_16 : (65536 : ℚ) = (2 : ℚ) ^ (16 : ℤ) := by
  rw [show ((16 : ℤ)) = ((16 : ℕ) : ℤ) from rfl, zpow_natCast]
  norm_num

theorem scaled_exact (q : ℚ) (m e : ℤ) (hqe : q = (m : ℚ) * 2 ^ e) :
    q * 65536 = (m : ℚ) * 2 ^ (e + 16) := by
  rw [hqe, two_zpow_16, mul_assoc, ← zpow_add₀ (by norm_num : (2 : ℚ) ≠ 0)]

theorem float_to_fixed_inrange (q : ℚ) (hq : IsF32 q) (h1 : -32768 ≤ q)
    (h2 : q ≤ (2147483647 : ℚ) / 65536) :
    float_to_fixed q = halfAway (q * 65536) := by
  obtain ⟨m, e, hm, he, hqe, _⟩ := hq
  have hmul : f32mul q (u32ToF32 65536) = q * 65536 := by
    rw [u32ToF32_65536]
    unfold f32mul
    exact roundF32_eq_self_of (q * 65536) m (e + 16) (scaled_exact q m e hqe) hm (by omega)
  unfold float_to_fixed
  rw [if_neg (by rw [MAX_FLOAT_eq]; push_neg; linarith), if_neg (by rw [MIN_FLOAT_eq]; push_neg; exact h1)]
  rw [hmul]
  have hub : (halfAway (q * 65536) : ℚ) ≤ 2147483647 + 1 / 2 := by
    have := halfAway_le (q * 65536)
    have hx : q * 65536 ≤ 2147483647 := by linarith [mul_le_mul_of_nonneg_right h2 (by norm_num : (0:ℚ) ≤ 65536), (by norm_num : (2147483647 : ℚ) / 65536 * 65536 = 2147483647)]
    linarith
  have hlb : -(2147483648 : ℚ) - 1 / 2 ≤ (halfAway (q * 65536) : ℚ) := by
    have := le_halfAway (q * 65536)
    have hx : -(2147483648 : ℚ) ≤ q * 65536 := by nlinarith
    linarith
  apply f32_as_i32_intCast
  · have hcast : (((-2147483649 : ℤ)) : ℚ) < (halfAway (q * 65536) : ℚ) := by
      push_cast
      linarith
    have h' : (-2147483649 : ℤ) < halfAway (q * 65536) := by exact_mod_cast hcast
    omega
  · have hcast : (halfAway (q * 65536) : ℚ) < ((2147483648 : ℤ) : ℚ) := by
      push_cast
      linarith
    have h' : halfAway (q * 65536) < (2147483648 : ℤ) := by exact_mod_cast hcast
    omega

theorem halfAway_nearest (x : ℚ) (k : ℤ) :
    |x - (halfAway x : ℚ)| ≤ |x - (k : ℚ)| := by
  rcases eq_or_ne k (halfAway x) with rfl | hne
  · exact le_refl _
  · have h1 : (1 : ℚ) ≤ |(halfAway x : ℚ) - (k : ℚ)| := by
      have h0 : 1 ≤ |halfAway x - k| := Int.one_le_abs (sub_ne_zero.mpr (Ne.symm hne))
      have h0' : ((1 : ℤ) : ℚ) ≤ ((|halfAway x - k| : ℤ) : ℚ) := by exact_mod_cast h0
      rw [Int.cast_abs] at h0'
      push_cast at h0'
      exact_mod_cast h0'
    have htri : |(halfAway x : ℚ) - k| ≤ |(halfAway x : ℚ) - x| + |x - k| := abs_sub_le _ _ _
    have hd := halfAway_dist x
    have hcomm : |(halfAway x : ℚ) - x| = |x - (halfAway x : ℚ)| := abs_sub_comm _ _
    linarith

end LP

namespace LP

theorem two_zpow_neg16 : (2 : ℚ) ^ (-16 : ℤ) = 1 / 65536 := by
  rw [show ((-16 : ℤ)) = -((16 : ℕ) : ℤ) by norm_num, zpow_neg, zpow_natCast]
  norm_num

theorem fixed_to_float_halfAway_err (q : ℚ) (hq : IsF32 q) (h1 : -32768 ≤ q)
    (h2 : q ≤ (2147483647 : ℚ) / 65536) :
    |fixed_to_float (halfAway (q * 65536)) - q| < 1 / 65536 := by
  obtain ⟨m, e, hm, he, hqe, _⟩ := hq
  have hx : q * 65536 = (m : ℚ) * 2 ^ (e + 16) := scaled_exact q m e hqe
  rcases le_or_lt 0 (e + 16) with he16 | he16
  · have hN : q * 65536 = ((m * 2 ^ (e + 16).toNat : ℤ) : ℚ) := by
      rw [hx]
      push_cast
      rw [← zpow_natCast (2 : ℚ) (e + 16).toNat, Int.toNat_of_nonneg he16]
    have hha : halfAway (q * 65536) = m * 2 ^ (e + 16).toNat := by
      rw [hN]
      exact halfAway_intCast _
    rw [hha]
    unfold fixed_to_float f32div i32ToF32
    rw [u32ToF32_65536]
    have hr1 : roundF32 (((m * 2 ^ (e + 16).toNat : ℤ) : ℚ)) =
        ((m * 2 ^ (e + 16).toNat : ℤ) : ℚ) := by
      apply roundF32_eq_self_of _ m (e + 16) _ hm (by omega)
      rw [← hN, hx]
    rw [hr1]
    have hdivq : ((m * 2 ^ (e + 16).toNat : ℤ) : ℚ) / 65536 = q := by
      rw [← hN]
      field_simp
    rw [hdivq]
    rw [roundF32_eq_self_of q m e hqe hm he]
    rw [sub_self, abs_zero]
    norm_num
  · have hmQ : |(m : ℚ)| < 16777216 := by
      rw [← Int.cast_abs]
      exact_mod_cast hm
    have h2e : (2 : ℚ) ^ (e + 16) ≤ 2 ^ (-1 : ℤ) := zpow_le_zpow_right₀ (by norm_num) (by omega)
    have h2n1 : (2 : ℚ) ^ (-1 : ℤ) = 1 / 2 := by
      rw [show ((-1 : ℤ)) = -((1 : ℕ) : ℤ) by norm_num, zpow_neg, zpow_natCast]
      norm_num
    have hxabs : |q * 65536| < 8388608 := by
      rw [hx, abs_mul, abs_of_pos (zpow_pos (show (0 : ℚ) < 2 by norm_num) (e + 16))]
      rw [h2n1] at h2e
      have hs1 : |(m : ℚ)| * 2 ^ (e + 16) ≤ |(m : ℚ)| * (1 / 2) :=
        mul_le_mul_of_nonneg_left h2e (abs_nonneg _)
      linarith
    have hd := halfAway_dist (q * 65536)
    have hnQ : |(halfAway (q * 65536) : ℚ)| < 8388609 := by
      have htri : |(halfAway (q * 65536) : ℚ)| ≤
          |q * 65536| + |q * 65536 - (halfAway (q * 65536) : ℚ)| := by
        have := abs_sub_abs_le_abs_sub (halfAway (q * 65536) : ℚ) (q * 65536)
        have habs2 : |(halfAway (q * 65536) : ℚ) - q * 65536| =
            |q * 65536 - (halfAway (q * 65536) : ℚ)| := abs_sub_comm _ _
        linarith
      linarith
    have hnZ : |halfAway (q * 65536)| < 2 ^ 24 := by
      have hc : ((|halfAway (q * 65536)| : ℤ) : ℚ) < ((16777216 : ℤ) : ℚ) := by
        rw [Int.cast_abs]
        push_cast
        linarith
      exact_mod_cast hc
    unfold fixed_to_float f32div i32ToF32
    rw [u32ToF32_65536]
    have hr1 : roundF32 ((halfAway (q * 65536) : ℚ)) = (halfAway (q * 65536) : ℚ) := by
      apply roundF32_eq_self_of _ (halfAway (q * 65536)) 0 _ hnZ (by norm_num)
      rw [zpow_zero, mul_one]
    rw [hr1]
    have hr2 : roundF32 ((halfAway (q * 65536) : ℚ) / 65536) =
        (halfAway (q * 65536) : ℚ) / 65536 := by
      apply roundF32_eq_self_of _ (halfAway (q * 65536)) (-16) _ hnZ (by norm_num)
      rw [two_zpow_neg16]
      ring
    rw [hr2]
    have hqx : q = q * 65536 / 65536 := by field_simp
    have hsub : (halfAway (q * 65536) : ℚ) / 65536 - q =
        ((halfAway (q * 65536) : ℚ) - q * 65536) / 65536 := by
      rw [hqx]
      ring
    rw [hsub, abs_div, abs_of_pos (by norm_num : (0 : ℚ) < 65536)]
    have habs3 : |(halfAway (q * 65536) : ℚ) - q * 65536| =
        |q * 65536 - (halfAway (q * 65536) : ℚ)| := abs_sub_comm _ _
    rw [habs3]
    linarith

end LP

namespace LP

/-- **C1.** For every finite binary32 value `q`, `float_to_fixed` saturates:
above the largest representable Q16.16 value `2147483647/65536`
(~32767.99998) it returns `MAX_FIXED`, below `-32768` it returns
`MIN_FIXED`; and for every in-range `q` it returns the nearest representable
Q16.16 value — the rounded-half-away-from-zero scaling `halfAway (q·65536)`,
which is at least as close to `q` as `k/65536` for every integer `k` — so
that `fixed_to_float (float_to_fixed q)` differs from `q` by less than
`1/65536`. -/
theorem float_to_fixed_saturates_and_rounds_nearest (q : ℚ) (hq : IsF32 q) :
    ((2147483647 : ℚ) / 65536 < q → float_to_fixed q = MAX_FIXED) ∧
    (q < -32768 → float_to_fixed q = MIN_FIXED) ∧
    (-32768 ≤ q → q ≤ (2147483647 : ℚ) / 65536 →
      float_to_fixed q = halfAway (q * 65536) ∧
      (∀ k : ℤ, |q - (float_to_fixed q : ℚ) / 65536| ≤ |q - (k : ℚ) / 65536|) ∧
      |fixed_to_float (float_to_fixed q) - q| < 1 / 65536) := by
  refine ⟨?_, ?_, ?_⟩
  · intro hgt
    by_cases hM : MAX_FLOAT < q
    · unfold float_to_fixed
      rw [if_pos hM]
    · push_neg at hM
      rw [MAX_FLOAT_eq] at hM
      have hq32768 : q = 32768 := isF32_gap q hq hgt hM
      subst hq32768
      have hmul : f32mul 32768 (u32ToF32 65536) = ((2147483648 : ℤ) : ℚ) := by
        rw [u32ToF32_65536]
        unfold f32mul
        have hlit : (32768 : ℚ) * 65536 = ((2147483648 : ℤ) : ℚ) := by
          push_cast
          norm_num
        have h31 : ((2147483648 : ℤ) : ℚ) = ((1 : ℤ) : ℚ) * 2 ^ (31 : ℤ) := by
          rw [show ((31 : ℤ)) = ((31 : ℕ) : ℤ) from rfl, zpow_natCast]
          norm_num
        rw [hlit]
        exact roundF32_eq_self_of _ 1 31 h31 (by norm_num) (by norm_num)
      unfold float_to_fixed
      rw [if_neg (by rw [MAX_FLOAT_eq]; norm_num), if_neg (by rw [MIN_FLOAT_eq]; norm_num)]
      rw [hmul, halfAway_intCast]
      unfold f32_as_i32
      rw [truncQ_intCast]
      norm_num [MAX_FIXED]
  · intro hlt
    unfold float_to_fixed
    rw [if_neg (by rw [MAX_FLOAT_eq]; push_neg; linarith), if_pos (by rw [MIN_FLOAT_eq]; exact hlt)]
  · intro h1 h2
    have heq := float_to_fixed_inrange q hq h1 h2
    refine ⟨heq, ?_, ?_⟩
    · intro k
      rw [heq]
      have hn := halfAway_nearest (q * 65536) k
      have habs65536 : |(65536 : ℚ)| = 65536 := by norm_num
      have e1 : |q - (halfAway (q * 65536) : ℚ) / 65536| =
          |q * 65536 - (halfAway (q * 65536) : ℚ)| / 65536 := by
        rw [show q - (halfAway (q * 65536) : ℚ) / 65536 =
          (q * 65536 - (halfAway (q * 65536) : ℚ)) / 65536 by ring]
        rw [abs_div, habs65536]
      have e2 : |q - (k : ℚ) / 65536| = |q * 65536 - (k : ℚ)| / 65536 := by
        rw [show q - (k : ℚ) / 65536 = (q * 65536 - (k : ℚ)) / 65536 by ring]
        rw [abs_div, habs65536]
      rw [e1, e2]
      linarith
    · rw [heq]
      exact fixed_to_float_halfAway_err q hq h1 h2

theorem float_to_fixed_saturates_and_rounds_nearest_witness :
    IsF32 (3 / 2 : ℚ) ∧ float_to_fixed (3 / 2 : ℚ) = 98304 := by
  have hq : IsF32 (3 / 2 : ℚ) := by
    refine ⟨3, -1, by norm_num, by norm_num, ?_, by rw [abs_of_pos (by norm_num : (0 : ℚ) < 3 / 2)]; norm_num⟩
    rw [show ((-1 : ℤ)) = -((1 : ℕ) : ℤ) by norm_num, zpow_neg, zpow_natCast]
    norm_num
  have h := (float_to_fixed_saturates_and_rounds_nearest (3 / 2 : ℚ) hq).2.2
    (by norm_num) (by norm_num)
  refine ⟨hq, ?_⟩
  rw [h.1]
  rw [show ((3 : ℚ) / 2) * 65536 = ((98304 : ℤ) : ℚ) by norm_num, halfAway_intCast]

end LP
